import Mathlib

/-!
Verification of the frost RISC-V co-verification engine reference models
against their specification.  The Python sources under `verif/` are shallowly
embedded: machine integers become `Nat` (masked explicitly where the source
masks), Python `Decimal` exact values become signed rationals, fallible code
returns `Except`, and the stateful tracker becomes explicit state passing.
Definitions are translated from the source files; definitions whose source
file is absent from the repository snapshot (config.py, test_state.py,
instruction_encode.py) are modelled from the specification and say so in
their doc comment.
-/

namespace Frost

/-- Constant MASK32 from the source (`fp_model.py` and config): the 32-bit mask. -/
def MASK32 : ℕ := 0xFFFFFFFF

/-! ## Memory model (`verif/models/memory_model.py`)

The byte store `ram_bytes` is a Python dict; it is embedded as an association
list where a write conses a new binding that shadows earlier ones, and lookup
returns the first binding (dict-get with default 0).  The constants
`MEMORY_ADDRESS_MASK` and `MEMORY_WORD_ALIGN_MASK` are imported by the source
from config.py, which is not in the repository snapshot, so the operations
take them as parameters. -/

/-- Byte-addressable sparse memory: embedding of the `ram_bytes` dict. -/
abbrev Ram := List (ℕ × ℕ)

/-- Embedding of `MemoryModel.read_byte`: `self.ram_bytes.get(address & MEMORY_ADDRESS_MASK, 0)`. -/
def read_byte (amask : ℕ) (ram : Ram) (address : ℕ) : ℕ :=
  ((ram.lookup (address &&& amask)).getD 0)

/-- Embedding of `MemoryModel.write_byte`: `self.ram_bytes[address & MEMORY_ADDRESS_MASK] = value & 0xFF`. -/
def write_byte (amask : ℕ) (ram : Ram) (address value : ℕ) : Ram :=
  (address &&& amask, value &&& 0xFF) :: ram

/-- Embedding of `MemoryModel.read_word`: align down with `MEMORY_WORD_ALIGN_MASK`,
assemble four bytes little-endian with `|` and shifts. -/
def read_word (amask walign : ℕ) (ram : Ram) (address : ℕ) : ℕ :=
  let aligned_address := address &&& walign
  read_byte amask ram aligned_address |||
    (read_byte amask ram (aligned_address + 1)) <<< 8 |||
    (read_byte amask ram (aligned_address + 2)) <<< 16 |||
    (read_byte amask ram (aligned_address + 3)) <<< 24

/-- Embedding of `MemoryModel.write_word`: align down, write the word as four
bytes in little-endian order (least-significant byte first). -/
def write_word (amask walign : ℕ) (ram : Ram) (address value : ℕ) : Ram :=
  let aligned_address := address &&& walign
  write_byte amask
    (write_byte amask
      (write_byte amask
        (write_byte amask ram aligned_address (value &&& 0xFF))
        (aligned_address + 1) ((value >>> 8) &&& 0xFF))
      (aligned_address + 2) ((value >>> 16) &&& 0xFF))
    (aligned_address + 3) ((value >>> 24) &&& 0xFF)

/-- Well-formedness of the byte store: every stored byte address is a fixed
point of masking with `MEMORY_ADDRESS_MASK` and every stored value is a byte. -/
def ramWellFormed (amask : ℕ) (ram : Ram) : Prop :=
  ∀ p ∈ ram, p.1 &&& amask = p.1 ∧ p.2 < 256

/-! ## Memory-write monitor (`MemoryModel.driver_and_monitor`)

One iteration of the monitoring loop, after the byte-enable mask, address and
data have been sampled from the hardware.  The source raises
`AssertionError`; failures are embedded as an error value. -/

/-- Failure raised by one step of the memory-write monitor. -/
inductive MonitorFailure where
  | addressMismatch (got expected : ℕ)
  | dataMismatch (addr got expected : ℕ)
  | unexpectedWrite (addr data mask : ℕ)
  | missingData
  deriving DecidableEq, Repr

/-- Embedding of one iteration of `MemoryModel.driver_and_monitor`: sample the
byte-enable mask; on a write, pop the oldest expectation from both queues and
compare address then data, or fail if nothing was expected. -/
def driver_and_monitor_step (raw_mask raw_addr raw_data : ℕ)
    (write_address_expected_queue write_data_expected_queue : List ℕ) :
    Except MonitorFailure (List ℕ × List ℕ) :=
  let wr_mask := raw_mask &&& 0xF
  if wr_mask ≠ 0 then
    let wr_addr := raw_addr &&& MASK32
    let wr_data := raw_data &&& MASK32
    match write_address_expected_queue, write_data_expected_queue with
    | exp_addr :: restA, exp_data :: restD =>
        if wr_addr ≠ exp_addr then .error (.addressMismatch wr_addr exp_addr)
        else if wr_data ≠ exp_data then .error (.dataMismatch wr_addr wr_data exp_data)
        else .ok (restA, restD)
    | [], _ => .error (.unexpectedWrite wr_addr wr_data wr_mask)
    | _ :: _, [] => .error .missingData
  else .ok (write_address_expected_queue, write_data_expected_queue)

/-! ## Pipeline state tracker and `InstructionExecutor.execute_sc`

`TestState` lives in test_state.py, which is not in the repository snapshot;
its fields and the reservation methods are modelled from the specification
(sections 3 and 4.3).  `execute_sc` itself is embedded from
`verif/cocotb_tests/instruction_executor.py` lines 394-464; the clock waits,
instruction encoding and logging have no effect on the modelled state and are
elided. -/

/-- Modelled from the spec: the pipeline state tracker state (spec sections 3
and 4.3): dual register-file views, program counter, the optional word-aligned
reservation address, the three ordered expected-value queues, and CSR
counters.  test_state.py is not in the repository snapshot. -/
structure TestState where
  register_file_previous : Fin 32 → ℕ
  register_file_current : Fin 32 → ℕ
  program_counter_current : ℕ
  reservation : Option ℕ
  memory_write_address_expected_queue : List ℕ
  memory_write_data_expected_queue : List ℕ
  pc_expected_queue : List ℕ
  regfile_expected_queue : List (Fin 32 → ℕ)
  cycle_counter : ℕ
  instret_counter : ℕ

/-- Modelled from the spec: `set_reservation(addr)` records the address (spec 4.3). -/
def set_reservation (st : TestState) (addr : ℕ) : TestState :=
  { st with reservation := some addr }

/-- Modelled from the spec: the probe half of the LR/SC protocol — SC succeeds
iff a reservation exists and matches the word-aligned address (spec 4.3). -/
def check_reservation (st : TestState) (addr : ℕ) : Bool :=
  st.reservation = some addr

/-- Modelled from the spec: the clear half of the LR/SC protocol — the
reservation is cleared unconditionally, independent of outcome (spec 4.3). -/
def clear_reservation (st : TestState) : TestState :=
  { st with reservation := none }

/-- Modelled from the spec: `queue_expected_outputs` appends the current
register-file snapshot and the expected PC to their queues in lock-step
(spec 4.3, `enqueue_expected`). -/
def queue_expected_outputs (st : TestState) (expected_pc : ℕ) : TestState :=
  { st with
    pc_expected_queue := st.pc_expected_queue ++ [expected_pc]
    regfile_expected_queue := st.regfile_expected_queue ++ [st.register_file_current] }

/-- Modelled from the spec: `advance_register_state` copies the current
register file to the previous view (spec 3, RegisterFileView). -/
def advance_register_state (st : TestState) : TestState :=
  { st with register_file_previous := st.register_file_current }

/-- Modelled from the spec: `update_program_counter` stores the new PC. -/
def update_program_counter (st : TestState) (pc : ℕ) : TestState :=
  { st with program_counter_current := pc }

/-- Modelled from the spec: CSR cycle counter increment. -/
def increment_cycle_counter (st : TestState) : TestState :=
  { st with cycle_counter := st.cycle_counter + 1 }

/-- Modelled from the spec: CSR instret counter increment. -/
def increment_instret_counter (st : TestState) : TestState :=
  { st with instret_counter := st.instret_counter + 1 }

/-- Word alignment of a register value: embeds the Python expression
`value & ~0x3` (clear the low two bits of a non-negative integer). -/
def word_aligned (v : ℕ) : ℕ := 4 * (v / 4)

/-- Embedding of `InstructionExecutor.execute_sc` (instruction_executor.py
394-464): compute the word-aligned address from the previous view of rs1,
probe and clear the reservation, on success queue the expected memory write
and apply it to the memory model, write 0 (success) or 1 (failure) to rd
unless rd is x0, queue expected outputs, and advance the tracker state.
Returns the success flag together with the new tracker and memory states. -/
def execute_sc (amask walign : ℕ) (st : TestState) (mem : Ram)
    (rd rs1 rs2 : Fin 32) : Bool × TestState × Ram :=
  let address := word_aligned (st.register_file_previous rs1)
  let success := check_reservation st address
  let st1 := clear_reservation st
  let result_value : ℕ := if success then 0 else 1
  let st2 :=
    if success then
      let write_data := st1.register_file_previous rs2
      { st1 with
        memory_write_address_expected_queue :=
          st1.memory_write_address_expected_queue ++ [address]
        memory_write_data_expected_queue :=
          st1.memory_write_data_expected_queue ++ [write_data] }
    else st1
  let mem2 :=
    if success then write_word amask walign mem address (st1.register_file_previous rs2)
    else mem
  let st3 :=
    if rd = 0 then st2
    else { st2 with
           register_file_current :=
             Function.update st2.register_file_current rd (result_value &&& MASK32) }
  let expected_pc := (st3.program_counter_current + 4) &&& MASK32
  let st4 := queue_expected_outputs st3 expected_pc
  let st5 := increment_cycle_counter st4
  let st6 := increment_instret_counter st5
  let st7 := update_program_counter st6 expected_pc
  let st8 := advance_register_state st7
  (success, st8, mem2)

/-! ## Instruction encoders (C3)

`compress_reg` is embedded from `verif/encoders/compressed_encode.py`; its
`assert` becomes an error result.  `enc_i` lives in
encoders/instruction_encode.py, which is not in the repository snapshot, and
is modelled from the specification (section 4.1: I-type immediates outside
the signed 12-bit range fail with `EncodingError`; standard RV32 I-type bit
layout).  `make_i_shift_encoder` is embedded from
`verif/encoders/op_tables.py` lines 203-205. -/

/-- Error raised when an encoder cannot represent its operands. -/
inductive EncodingFault where
  | operandOutOfRange
  deriving DecidableEq, Repr

/-- Modelled from the spec: `enc_i` (encoders/instruction_encode.py, absent
from the snapshot).  Spec 4.1: an immediate outside the signed 12-bit range
fails with `EncodingError` rather than silently truncating; otherwise the
standard I-type layout imm[11:0] | rs1 | funct3 | rd | opcode 0x13. -/
def enc_i (imm : ℤ) (rs1 f3 rd : ℕ) : Except EncodingFault ℕ :=
  if imm < -2048 ∨ 2047 < imm then .error .operandOutOfRange
  else .ok ((imm.emod 4096).toNat <<< 20 ||| rs1 <<< 15 ||| f3 <<< 12 ||| rd <<< 7 ||| 0x13)

/-- Embedding of `make_i_shift_encoder` (op_tables.py 203-205): the returned
encoder is `lambda rd, rs1, sh: enc_i((sh & 0x1F) | (f7 << 5), rs1, f3, rd)`. -/
def make_i_shift_encoder (f3 f7 : ℕ) : ℕ → ℕ → ℕ → Except EncodingFault ℕ :=
  fun rd rs1 sh => enc_i (((sh &&& 0x1F) ||| (f7 <<< 5) : ℕ) : ℤ) rs1 f3 rd

/-- The `slli` encoder from the `I_ALU` table: `make_i_shift_encoder(0x1, 0x00)`. -/
def slli_encoder : ℕ → ℕ → ℕ → Except EncodingFault ℕ := make_i_shift_encoder 0x1 0x00

/-- Embedding of `compress_reg` (compressed_encode.py 70-83): convert a full
register index 8-15 to the compressed 3-bit field; the assertion on the range
becomes an error result. -/
def compress_reg (reg : ℕ) : Except EncodingFault ℕ :=
  if 8 ≤ reg ∧ reg ≤ 15 then .ok (reg - 8) else .error .operandOutOfRange

/-! ## Branch model (`verif/models/branch_model.py`, `verif/utils/riscv_utils.py`) -/

/-- Embedding of `sign_extend` (riscv_utils.py): with `sign = 1 <<< (bits-1)`,
return `(val & (sign - 1)) - (val & sign)`.  Its only caller passes the
already-masked non-negative value, embedded here as a natural number. -/
def sign_extend (val : ℕ) (bits : ℕ) : ℤ :=
  let sign := 1 <<< (bits - 1)
  ((val &&& (sign - 1) : ℕ) : ℤ) - ((val &&& sign : ℕ) : ℤ)

/-- Embedding of `to_signed32` (riscv_utils.py): `sign_extend(val & MASK32, 32)`.
Python `&` on a possibly negative int is two's-complement, i.e. `emod 2^32`. -/
def to_signed32 (val : ℤ) : ℤ :=
  sign_extend (val.emod (2 ^ 32)).toNat 32

/-- Error raised by the branch model on an unknown operation string
(`ValidationError` in the source). -/
inductive BranchFault where
  | invalidBranchOperation
  deriving DecidableEq, Repr

/-- Embedding of `branch_taken_decision` (branch_model.py 29-57): equality on
the raw operand values for beq/bne, signed comparison through `to_signed32`
for blt/bge, unsigned comparison on the masked values for bltu/bgeu, and a
`ValidationError` on any other operation string. -/
def branch_taken_decision (operation : String) (operand_a operand_b : ℤ) :
    Except BranchFault Bool :=
  if operation = "beq" then .ok (decide (operand_a = operand_b))
  else if operation = "bne" then .ok (decide (operand_a ≠ operand_b))
  else if operation = "blt" then .ok (decide (to_signed32 operand_a < to_signed32 operand_b))
  else if operation = "bge" then .ok (decide (to_signed32 operand_a ≥ to_signed32 operand_b))
  else if operation = "bltu" then .ok (decide (operand_a.emod (2 ^ 32) < operand_b.emod (2 ^ 32)))
  else if operation = "bgeu" then .ok (decide (operand_a.emod (2 ^ 32) ≥ operand_b.emod (2 ^ 32)))
  else .error .invalidBranchOperation

/-! ## Floating-point model (`verif/models/fp_model.py`)

Bit patterns are naturals below 2^32.  The exact values carried by Python
`Decimal` objects in `_fma_float32` are embedded as signed rationals: a sign
flag together with a non-negative magnitude, so that the signed zeros that
`Decimal` distinguishes are preserved.  The source sets the Decimal context
to 150 significant digits, enough to make every operation it performs exact
for the dyadic values that arise, so the embedding uses exact rational
arithmetic. -/

/-- IEEE 754 single-precision constant from the source. -/
def FP_POS_ZERO : ℕ := 0x00000000

/-- IEEE 754 single-precision constant from the source. -/
def FP_NEG_ZERO : ℕ := 0x80000000

/-- IEEE 754 single-precision constant from the source. -/
def FP_POS_INF : ℕ := 0x7F800000

/-- IEEE 754 single-precision constant from the source. -/
def FP_NEG_INF : ℕ := 0xFF800000

/-- Canonical quiet NaN from the source. -/
def FP_CANONICAL_NAN : ℕ := 0x7FC00000

/-- Sign mask from the source. -/
def FP_SIGN_MASK : ℕ := 0x80000000

/-- Exponent mask from the source. -/
def FP_EXP_MASK : ℕ := 0x7F800000

/-- Mantissa mask from the source. -/
def FP_MANT_MASK : ℕ := 0x007FFFFF

/-- Embedding of `is_nan`: exponent field all ones and mantissa non-zero. -/
def is_nan (bits : ℕ) : Bool :=
  decide ((bits &&& FP_EXP_MASK) >>> 23 = 0xFF) && decide (bits &&& FP_MANT_MASK ≠ 0)

/-- Embedding of `is_inf`: exponent field all ones and mantissa zero. -/
def is_inf (bits : ℕ) : Bool :=
  decide ((bits &&& FP_EXP_MASK) >>> 23 = 0xFF) && decide (bits &&& FP_MANT_MASK = 0)

/-- Embedding of `is_zero`: all bits but the sign are zero. -/
def is_zero (bits : ℕ) : Bool :=
  decide (bits &&& 0x7FFFFFFF = 0)

/-- Embedding of `is_subnormal`: exponent field zero and mantissa non-zero. -/
def is_subnormal (bits : ℕ) : Bool :=
  decide ((bits &&& FP_EXP_MASK) >>> 23 = 0) && decide (bits &&& FP_MANT_MASK ≠ 0)

/-- Embedding of `is_negative`: the sign bit is set. -/
def is_negative (bits : ℕ) : Bool :=
  decide (bits &&& FP_SIGN_MASK ≠ 0)

/-- Embedding of `canonicalize_nan`: any NaN becomes the canonical quiet NaN. -/
def canonicalize_nan (bits : ℕ) : ℕ :=
  if is_nan bits then FP_CANONICAL_NAN else bits

/-- A signed exact value: embedding of a finite Python `Decimal`.  The sign
flag and the non-negative magnitude keep the two signed zeros apart, exactly
as `Decimal` does. -/
structure SDec where
  neg : Bool
  mag : ℚ
  deriving DecidableEq

/-- The rational value carried by a signed exact value. -/
def SDec.toRat (d : SDec) : ℚ := if d.neg then -d.mag else d.mag

/-- Exact multiplication of signed values, as performed on `Decimal`s: the
magnitudes multiply and the signs combine by exclusive or (so a zero product
of a negative and a positive operand is a negative zero). -/
def SDec.mul (a b : SDec) : SDec :=
  { neg := xor a.neg b.neg, mag := a.mag * b.mag }

/-- Exact addition of signed values, as performed on `Decimal`s under
ROUND_HALF_EVEN: a non-zero sum takes its own sign, and an exact zero sum is
negative only when both operands are negative (cancellation of opposite
non-zero operands gives a positive zero). -/
def SDec.add (a b : SDec) : SDec :=
  let s : ℚ := (if a.neg then -a.mag else a.mag) + (if b.neg then -b.mag else b.mag)
  if s = 0 then { neg := a.neg && b.neg, mag := 0 }
  else { neg := decide (s < 0), mag := |s| }

/-- Embedding of `float32_to_decimal` inside `_fma_float32`: unpack the bit
pattern and build the exact value; a zero exponent gives `mant * 2^(-149)`
(signed zero or subnormal), otherwise `(0x800000 | mant) * 2^(exp - 150)`. -/
def float32_to_decimal (bits : ℕ) : SDec :=
  let sign := (bits >>> 31) &&& 1
  let exp := (bits >>> 23) &&& 0xFF
  let mant := bits &&& 0x7FFFFF
  if exp = 0 then
    { neg := decide (sign = 1), mag := (mant : ℚ) * (2 : ℚ) ^ (-149 : ℤ) }
  else
    { neg := decide (sign = 1), mag := ((0x800000 ||| mant : ℕ) : ℚ) * (2 : ℚ) ^ ((exp : ℤ) - 150) }

/-- The signed rational value of a finite binary32 bit pattern (the value the
source obtains from `bits_to_float` on a non-NaN, non-infinite pattern). -/
def float32_val (bits : ℕ) : ℚ := (float32_to_decimal bits).toRat

/-- Embedding of `decimal_to_float32` inside `_fma_float32`: convert an exact
signed value to binary32 bits with a single round-to-nearest-even step.  The
binary-exponent doubling/halving search of the source computes exactly the
integer e with 2^e ≤ |d| < 2^(e+1) (the source asserts this bracket), which
is `Int.log 2` of the magnitude.  Python `int()` on the positive scaled value
is the floor; the remainder test feeds the sticky bit.  The NaN and infinite
branches of the source cannot fire for a value produced by exact arithmetic
on finite operands and are omitted. -/
def decimal_to_float32 (d : SDec) : ℕ :=
  if d.mag = 0 then (if d.neg then FP_NEG_ZERO else FP_POS_ZERO)
  else
    let sign : ℕ := if d.neg then 1 else 0
    let d_abs := d.mag
    let exp_estimate : ℤ := Int.log 2 d_abs
    let biased_exp : ℤ := exp_estimate + 127
    if 255 ≤ biased_exp then (if d.neg then FP_NEG_INF else FP_POS_INF)
    else if 1 ≤ biased_exp then
      let scaled : ℚ := d_abs * (2 : ℚ) ^ (50 - exp_estimate)
      let scaled_int : ℕ := (⌊scaled⌋).toNat
      let mantissa_24 := scaled_int >>> 27
      let guard := (scaled_int >>> 26) &&& 1
      let round_bit := (scaled_int >>> 25) &&& 1
      let sticky : ℕ :=
        if scaled_int &&& 0x1FFFFFF ≠ 0 ∨ scaled ≠ (scaled_int : ℚ) then 1 else 0
      let lsb := mantissa_24 &&& 1
      let round_up := guard &&& (round_bit ||| sticky ||| lsb)
      if round_up ≠ 0 then
        let m2 := mantissa_24 + 1
        if 1 <<< 24 ≤ m2 then
          let m3 := m2 >>> 1
          let be2 := biased_exp + 1
          if 255 ≤ be2 then (if d.neg then FP_NEG_INF else FP_POS_INF)
          else sign <<< 31 ||| be2.toNat <<< 23 ||| (m3 &&& 0x7FFFFF)
        else sign <<< 31 ||| biased_exp.toNat <<< 23 ||| (m2 &&& 0x7FFFFF)
      else sign <<< 31 ||| biased_exp.toNat <<< 23 ||| (mantissa_24 &&& 0x7FFFFF)
    else
      let shift := 1 - biased_exp
      if 25 ≤ shift then (if d.neg then FP_NEG_ZERO else FP_POS_ZERO)
      else
        let scaled : ℚ := d_abs * (2 : ℚ) ^ (49 + biased_exp - exp_estimate)
        let scaled_int : ℕ := (⌊scaled⌋).toNat
        let mantissa := scaled_int >>> 27
        let guard := (scaled_int >>> 26) &&& 1
        let round_bit := (scaled_int >>> 25) &&& 1
        let sticky : ℕ :=
          if scaled_int &&& 0x1FFFFFF ≠ 0 ∨ scaled ≠ (scaled_int : ℚ) then 1 else 0
        let lsb := mantissa &&& 1
        let round_up := guard &&& (round_bit ||| sticky ||| lsb)
        if round_up ≠ 0 then
          let m2 := mantissa + 1
          if 1 <<< 23 ≤ m2 then sign <<< 31 ||| 1 <<< 23
          else sign <<< 31 ||| (m2 &&& 0x7FFFFF)
        else sign <<< 31 ||| (mantissa &&& 0x7FFFFF)

/-- Embedding of `_fma_float32` (fp_model.py 52-293): special cases for
infinite and zero operands, then the exact finite path — decode the three
operands, form the exact product, add the addend at full precision, and
convert back with a single rounding. -/
def fma_float32 (a_bits b_bits c_bits : ℕ) : ℕ :=
  let a_inf := is_inf a_bits
  let b_inf := is_inf b_bits
  let c_inf := is_inf c_bits
  let a_zero := is_zero a_bits
  let b_zero := is_zero b_bits
  if (a_inf && b_zero) || (a_zero && b_inf) then FP_CANONICAL_NAN
  else if a_inf || b_inf then
    let prod_sign := ((a_bits >>> 31) &&& 1) ^^^ ((b_bits >>> 31) &&& 1)
    if c_inf then
      let c_sign := (c_bits >>> 31) &&& 1
      if prod_sign ≠ c_sign then FP_CANONICAL_NAN
      else if prod_sign ≠ 0 then FP_NEG_INF else FP_POS_INF
    else if prod_sign ≠ 0 then FP_NEG_INF else FP_POS_INF
  else if c_inf then
    if (c_bits >>> 31) &&& 1 ≠ 0 then FP_NEG_INF else FP_POS_INF
  else
    decimal_to_float32
      (SDec.add (SDec.mul (float32_to_decimal a_bits) (float32_to_decimal b_bits))
        (float32_to_decimal c_bits))

/-- Embedding of `fmadd_s` (fp_model.py 455-471): NaN operands, zero times
infinity, and an infinite product opposed to an infinite addend give the
canonical NaN; otherwise the single-rounded fused multiply-add. -/
def fmadd_s (rs1_bits rs2_bits rs3_bits : ℕ) : ℕ :=
  if is_nan rs1_bits || is_nan rs2_bits || is_nan rs3_bits then FP_CANONICAL_NAN
  else if (is_zero rs1_bits && is_inf rs2_bits) || (is_inf rs1_bits && is_zero rs2_bits) then
    FP_CANONICAL_NAN
  else if (is_inf rs1_bits || is_inf rs2_bits) && is_inf rs3_bits
      && decide ((rs3_bits >>> 31) &&& 1 ≠ ((rs1_bits >>> 31) ^^^ (rs2_bits >>> 31)) &&& 1) then
    FP_CANONICAL_NAN
  else canonicalize_nan (fma_float32 rs1_bits rs2_bits rs3_bits)

/-! ## Ideal binary32 rounding (specification side)

These definitions follow the words of the specification, not the source: a
real number is rounded once to binary32 by round-half-to-even on its
significand at the ulp exponent, with the subnormal range sharing the fixed
ulp exponent -149 and overflow going to a signed infinity.  They are the
reference against which `decimal_to_float32` is verified. -/

/-- Round a rational to the nearest integer, ties to the even integer. -/
def rneInt (x : ℚ) : ℤ :=
  let n := ⌊x⌋
  if x - n < 1 / 2 then n
  else if (1 : ℚ) / 2 < x - n then n + 1
  else if n % 2 = 0 then n else n + 1

/-- The binary32 ulp exponent of a positive rational: 23 below its binary
magnitude, never below the subnormal ulp exponent -149. -/
def ulpExp32 (q : ℚ) : ℤ := max (Int.log 2 q - 23) (-149)

/-- Ideal round-to-nearest-even of a positive rational to binary32, without
the sign bit: scale by the ulp exponent, round the significand to an integer
with ties to even, then encode as zero, subnormal, normal, or infinity on
overflow. -/
def idealRoundPos (q : ℚ) : ℕ :=
  let k := ulpExp32 q
  let n : ℕ := (rneInt (q * (2 : ℚ) ^ (-k))).toNat
  if n = 0 then 0
  else if (2 : ℚ) ^ (128 : ℤ) ≤ (n : ℚ) * (2 : ℚ) ^ k then FP_POS_INF
  else if 1 <<< 24 ≤ n then (k + 151).toNat <<< 23 ||| ((n >>> 1) &&& 0x7FFFFF)
  else if 1 <<< 23 ≤ n then (k + 150).toNat <<< 23 ||| (n &&& 0x7FFFFF)
  else n

/-- Ideal round-to-nearest-even of a signed exact value to binary32 bits:
signed zeros round to themselves, and a non-zero magnitude is rounded by
`idealRoundPos` with the sign bit put on afterwards. -/
def idealRound32 (d : SDec) : ℕ :=
  if d.mag = 0 then (if d.neg then FP_NEG_ZERO else FP_POS_ZERO)
  else (if d.neg then FP_SIGN_MASK else 0) ||| idealRoundPos d.mag

/-- The IEEE-754 binary32 fused multiply-add of three finite operands, per
the specification: the exact product of a and b, plus c at full precision,
rounded once to binary32 with round-half-to-even. -/
def idealFMA32 (a b c : ℕ) : ℕ :=
  idealRound32
    (SDec.add (SDec.mul (float32_to_decimal a) (float32_to_decimal b))
      (float32_to_decimal c))

/-- The naive two-step computation the specification warns about:
`round(round(a*b) + c)`, each step a binary32 round-to-nearest-even. -/
def twoStepFMA32 (a b c : ℕ) : ℕ :=
  idealRound32
    (SDec.add
      (float32_to_decimal (idealRound32 (SDec.mul (float32_to_decimal a) (float32_to_decimal b))))
      (float32_to_decimal c))

/-! ## Division, conversion and classification (`verif/models/fp_model.py`) -/

/-- Model of IEEE binary64 round-to-nearest-even on an exact rational: the
value of the Python float64 quotient.  Overflow cannot occur at the
magnitudes produced by ratios of binary32 values (at most 2^277), so no
overflow branch is needed. -/
def round_float64 (q : ℚ) : ℚ :=
  if q = 0 then 0
  else
    let k : ℤ := max (Int.log 2 |q| - 52) (-1074)
    (rneInt (q * (2 : ℚ) ^ (-k)) : ℚ) * (2 : ℚ) ^ k

/-- Model of `float_to_bits` applied to the host float64 result of an
arithmetic operation on finite binary32 values: round the exact float64
value to binary32 (overflow saturates to a signed infinity, exactly what the
source does when `struct.pack` overflows).  The sign flag decides the sign
of a zero result. -/
def pack_float32 (negz : Bool) (q : ℚ) : ℕ :=
  if q = 0 then (if negz then FP_NEG_ZERO else FP_POS_ZERO)
  else idealRound32 { neg := decide (q < 0), mag := |q| }

/-- Embedding of `fdiv_s` (fp_model.py 417-434): NaN operands, infinity over
infinity, and zero over zero give the canonical NaN; a zero divisor gives an
infinity signed by the exclusive or of the operand signs; otherwise the host
float64 quotient packed to binary32 (with the infinite-operand host-float
cases spelled out). -/
def fdiv_s (rs1_bits rs2_bits : ℕ) : ℕ :=
  if is_nan rs1_bits || is_nan rs2_bits then FP_CANONICAL_NAN
  else if is_inf rs1_bits && is_inf rs2_bits then FP_CANONICAL_NAN
  else if is_zero rs1_bits && is_zero rs2_bits then FP_CANONICAL_NAN
  else if is_zero rs2_bits then
    FP_POS_INF ||| ((rs1_bits ^^^ rs2_bits) &&& FP_SIGN_MASK)
  else
    let result_bits :=
      if is_inf rs1_bits then
        (((rs1_bits ^^^ rs2_bits) &&& FP_SIGN_MASK)) ||| FP_POS_INF
      else if is_inf rs2_bits then
        ((rs1_bits ^^^ rs2_bits) &&& FP_SIGN_MASK)
      else
        let qv := round_float64 (float32_val rs1_bits / float32_val rs2_bits)
        pack_float32 (decide ((rs1_bits ^^^ rs2_bits) &&& FP_SIGN_MASK ≠ 0)) qv
    canonicalize_nan result_bits

/-- Embedding of `_round_to_nearest_even` (fp_model.py 296-299): Python
`round` on an exactly-represented value rounds to the nearest integer with
ties to even. -/
def round_to_nearest_even (value : ℚ) : ℤ := rneInt value

/-- Embedding of `fcvt_w_s` (fp_model.py 643-661): NaN gives the most
positive value; infinities and out-of-range finite values saturate; in-range
values round to nearest with ties to even and are masked to 32 bits
(two's-complement for negatives, Python `& MASK32`). -/
def fcvt_w_s (rs1_bits : ℕ) : ℕ :=
  if is_nan rs1_bits then 0x7FFFFFFF
  else if is_inf rs1_bits then
    (if !is_negative rs1_bits then 0x7FFFFFFF else 0x80000000)
  else
    let f := float32_val rs1_bits
    if (2147483648 : ℚ) ≤ f then 0x7FFFFFFF
    else if f < -2147483648 then 0x80000000
    else
      let result := round_to_nearest_even f
      if 2147483647 < result then 0x7FFFFFFF
      else if result < -2147483648 then 0x80000000
      else (result.emod (2 ^ 32)).toNat

/-- Specification-side restatement of the claimed `fcvt_w_s` behaviour: total
and saturating, NaN to the most positive value, rounding to nearest with
ties to even and 32-bit two's-complement masking in range. -/
def fcvt_w_s_spec (bits : ℕ) : ℕ :=
  if is_nan bits then 0x7FFFFFFF
  else if is_inf bits then (if is_negative bits then 0x80000000 else 0x7FFFFFFF)
  else if (2147483648 : ℚ) ≤ float32_val bits then 0x7FFFFFFF
  else if float32_val bits < -2147483648 then 0x80000000
  else ((rneInt (float32_val bits)).emod (2 ^ 32)).toNat

/-- Embedding of `fclass_s` (fp_model.py 720-758): the 10-bit one-hot class
mask. -/
def fclass_s (rs1_bits : ℕ) : ℕ :=
  let sign := is_negative rs1_bits
  let exp := (rs1_bits &&& FP_EXP_MASK) >>> 23
  let mant := rs1_bits &&& FP_MANT_MASK
  if exp = 0xFF then
    if mant = 0 then (if sign then 1 else 0x80)
    else if mant &&& 0x00400000 ≠ 0 then 0x200
    else 0x100
  else if exp = 0 then
    if mant = 0 then (if sign then 8 else 0x10)
    else (if sign then 4 else 0x20)
  else (if sign then 2 else 0x40)

/-- Specification-side category index of a binary32 bit pattern, following
the ten categories named by the claim: 0 for negative infinity, 1 negative
normal, 2 negative subnormal, 3 negative zero, 4 positive zero, 5 positive
subnormal, 6 positive normal, 7 positive infinity, 8 signaling NaN (quiet
bit 22 clear), 9 quiet NaN (bit 22 set). -/
def fclassIndex (bits : ℕ) : ℕ :=
  if is_nan bits then (if bits.testBit 22 then 9 else 8)
  else if is_inf bits then (if is_negative bits then 0 else 7)
  else if is_zero bits then (if is_negative bits then 3 else 4)
  else if is_subnormal bits then (if is_negative bits then 2 else 5)
  else (if is_negative bits then 1 else 6)

/-- A concrete tracker state used to exercise the store-conditional model:
x10 holds the reserved address 0x100, x12 holds the store data 0xDEADBEEF,
and the reservation is set to 0x100. -/
def sampleState : TestState where
  register_file_previous := fun i => if i = 10 then 0x100 else if i = 12 then 0xDEADBEEF else 0
  register_file_current := fun i => if i = 10 then 0x100 else if i = 12 then 0xDEADBEEF else 0
  program_counter_current := 0
  reservation := some 0x100
  memory_write_address_expected_queue := []
  memory_write_data_expected_queue := []
  pc_expected_queue := []
  regfile_expected_queue := []
  cycle_counter := 0
  instret_counter := 0

/-- Specification-side reinterpretation of a 32-bit value as a
two's-complement signed integer, as the claim words it. -/
def twosComplementView (x : ℤ) : ℤ := if x < 2 ^ 31 then x else x - 2 ^ 32

/-! ## Shared bit-manipulation lemmas -/

lemma land_land (a m : ℕ) : (a &&& m) &&& m = a &&& m := by
  rw [Nat.and_assoc]
  have : m &&& m = m := by
    apply Nat.eq_of_testBit_eq
    intro i
    simp
  rw [this]

lemma land_255 (x : ℕ) : x &&& 0xFF = x % 256 := by
  have h : (0xFF : ℕ) = 2 ^ 8 - 1 := rfl
  rw [h, Nat.and_pow_two_sub_one_eq_mod]

lemma byte_assembly (v : ℕ) :
    (v &&& 0xFF) ||| ((v >>> 8) &&& 0xFF) <<< 8 ||| ((v >>> 16) &&& 0xFF) <<< 16 |||
      ((v >>> 24) &&& 0xFF) <<< 24 = v &&& 0xFFFFFFFF := by
  apply Nat.eq_of_testBit_eq
  intro i
  have h1 : (0xFF : ℕ) = 2 ^ 8 - 1 := rfl
  have h2 : (0xFFFFFFFF : ℕ) = 2 ^ 32 - 1 := rfl
  rw [h1, h2]
  simp only [Nat.and_pow_two_sub_one_eq_mod, Nat.testBit_or, Nat.testBit_shiftLeft,
    Nat.testBit_mod_two_pow, Nat.testBit_shiftRight]
  by_cases hA : i < 8
  · have n8 : ¬ 8 ≤ i := by omega
    have n16 : ¬ 16 ≤ i := by omega
    have n24 : ¬ 24 ≤ i := by omega
    have l32 : i < 32 := by omega
    simp [hA, n8, n16, n24, l32]
  · by_cases hB : i < 16
    · have y8 : 8 ≤ i := by omega
      have n16 : ¬ 16 ≤ i := by omega
      have n24 : ¬ 24 ≤ i := by omega
      have l32 : i < 32 := by omega
      have lb : i - 8 < 8 := by omega
      have e : 8 + (i - 8) = i := by omega
      simp [hA, y8, n16, n24, l32, lb, e]
    · by_cases hC : i < 24
      · have y8 : 8 ≤ i := by omega
        have y16 : 16 ≤ i := by omega
        have n24 : ¬ 24 ≤ i := by omega
        have l32 : i < 32 := by omega
        have nb : ¬ i - 8 < 8 := by omega
        have lb : i - 16 < 8 := by omega
        have e : 16 + (i - 16) = i := by omega
        simp [hA, y8, y16, n24, l32, nb, lb, e]
      · by_cases hD : i < 32
        · have y8 : 8 ≤ i := by omega
          have y16 : 16 ≤ i := by omega
          have y24 : 24 ≤ i := by omega
          have nb1 : ¬ i - 8 < 8 := by omega
          have nb2 : ¬ i - 16 < 8 := by omega
          have lb : i - 24 < 8 := by omega
          have e : 24 + (i - 24) = i := by omega
          simp [hA, y8, y16, y24, hD, nb1, nb2, lb, e]
        · have nb0 : ¬ i < 8 := by omega
          have nb1 : ¬ i - 8 < 8 := by omega
          have nb2 : ¬ i - 16 < 8 := by omega
          have nb3 : ¬ i - 24 < 8 := by omega
          simp [nb0, nb1, nb2, nb3, hD]

lemma wf_write_byte (amask : ℕ) (ram : Ram) (a v : ℕ)
    (hwf : ramWellFormed amask ram) : ramWellFormed amask (write_byte amask ram a v) := by
  intro p hp
  rcases List.mem_cons.mp hp with h | h
  · subst h
    refine ⟨land_land a amask, ?_⟩
    rw [land_255]
    exact Nat.mod_lt _ (by norm_num)
  · exact hwf p h

/-! ## C9: address masking invariant and silent aliasing -/

/-- C9: every memory-model access masks its address with MEMORY_ADDRESS_MASK,
so the invariant that stored byte addresses are fixed points of the mask (and
stored values are bytes) is preserved by byte and word writes, and accesses
beyond the modelled memory silently alias to the masked address, with no
memory-access error raised. -/
theorem memory_address_masking_invariant (amask walign : ℕ) (ram : Ram) (a v : ℕ)
    (hwf : ramWellFormed amask ram) :
    ramWellFormed amask (write_byte amask ram a v) ∧
    ramWellFormed amask (write_word amask walign ram a v) ∧
    read_byte amask ram a = read_byte amask ram (a &&& amask) ∧
    write_byte amask ram a v = write_byte amask ram (a &&& amask) v := by
  refine ⟨wf_write_byte amask ram a v hwf, ?_, ?_, ?_⟩
  · exact wf_write_byte _ _ _ _ (wf_write_byte _ _ _ _ (wf_write_byte _ _ _ _
      (wf_write_byte _ _ _ _ hwf)))
  · unfold read_byte
    rw [land_land]
  · unfold write_byte
    rw [land_land]

/-- Witness for C9 at a concrete out-of-range address: reading byte address
0x12345 through a 12-bit address mask aliases to reading 0x345. -/
theorem memory_address_masking_invariant_witness :
    read_byte 0xFFF [] 0x12345 = read_byte 0xFFF [] (0x12345 &&& 0xFFF) :=
  (memory_address_masking_invariant 0xFFF 0xFFC [] 0x12345 300
    (by intro p hp; cases hp)).2.2.1

/-! ## C4: unwritten bytes read as zero, word write/read round trip -/

/-- C4: with the address mask a power of two minus one (at least word-sized)
and the word-align mask clearing its low two bits, reading any never-written
byte address gives 0, and a word write followed by a word read at the same
address returns the value masked to 32 bits, both operations aligning the
address down to a 4-byte boundary and decomposing little-endian into bytes. -/
theorem memory_word_roundtrip (k amask walign : ℕ) (ram : Ram) (a v : ℕ)
    (hk : 2 ≤ k) (ham : amask = 2 ^ k - 1) (hwa : walign = 2 ^ k - 4) :
    read_byte amask [] a = 0 ∧
    read_word amask walign [] a = 0 ∧
    read_word amask walign (write_word amask walign ram a v) a = v &&& MASK32 := by
  subst ham hwa
  have h4 : 4 ≤ 2 ^ k := by
    calc (4 : ℕ) = 2 ^ 2 := rfl
    _ ≤ 2 ^ k := Nat.pow_le_pow_right (by norm_num) hk
  refine ⟨rfl, by simp [read_word, read_byte], ?_⟩
  simp only [read_word, write_word, write_byte, read_byte]
  set al := a &&& (2 ^ k - 4) with hal
  have hle : al ≤ 2 ^ k - 4 := Nat.and_le_right
  have hkey : ∀ j, j ≤ 3 → (al + j) &&& (2 ^ k - 1) = al + j := by
    intro j hj
    rw [Nat.and_pow_two_sub_one_eq_mod]
    exact Nat.mod_eq_of_lt (by omega)
  have hk0 : al &&& (2 ^ k - 1) = al := by
    have := hkey 0 (by omega)
    simpa using this
  have e1 : (al == al + 1) = false := beq_eq_false_iff_ne.mpr (by omega)
  have e2 : (al == al + 2) = false := beq_eq_false_iff_ne.mpr (by omega)
  have e3 : (al == al + 3) = false := beq_eq_false_iff_ne.mpr (by omega)
  have f1 : (al + 1 == al + 2) = false := beq_eq_false_iff_ne.mpr (by omega)
  have f2 : (al + 1 == al + 3) = false := beq_eq_false_iff_ne.mpr (by omega)
  have f3 : (al + 2 == al + 3) = false := beq_eq_false_iff_ne.mpr (by omega)
  rw [hk0, hkey 1 (by omega), hkey 2 (by omega), hkey 3 (by omega)]
  simp only [List.lookup, beq_self_eq_true, e1, e2, e3, f1, f2, f3, Option.getD_some]
  rw [land_land, land_land, land_land, land_land]
  exact byte_assembly v

/-- Witness for C4 with a 12-bit memory, a concrete address and value. -/
theorem memory_word_roundtrip_witness :
    read_word 0xFFF 0xFFC (write_word 0xFFF 0xFFC [] 0x123 0x11223344) 0x123 =
      0x11223344 &&& MASK32 :=
  (memory_word_roundtrip 12 0xFFF 0xFFC [] 0x123 0x11223344 (by norm_num)
    (by norm_num) (by norm_num)).2.2

/-! ## C8: memory-write monitor protocol -/

/-- C8: whenever the hardware signals a write (non-zero byte-enable mask)
while the expected-write queues are empty, the monitor fails with an
unexpected-write error carrying the observed address, data and mask, rather
than ignoring the write; with non-empty queues it pops the oldest entry and
fails on any address or data mismatch, accepting only an exact match. -/
theorem monitor_step_spec (raw_mask raw_addr raw_data : ℕ) (qa qd : List ℕ)
    (hmask : raw_mask &&& 0xF ≠ 0) :
    (qa = [] →
      driver_and_monitor_step raw_mask raw_addr raw_data qa qd =
        .error (.unexpectedWrite (raw_addr &&& MASK32) (raw_data &&& MASK32)
          (raw_mask &&& 0xF))) ∧
    (∀ a as d ds, qa = a :: as → qd = d :: ds →
      ((a ≠ raw_addr &&& MASK32 ∨ d ≠ raw_data &&& MASK32) →
        ∃ e, driver_and_monitor_step raw_mask raw_addr raw_data qa qd = .error e) ∧
      (a = raw_addr &&& MASK32 → d = raw_data &&& MASK32 →
        driver_and_monitor_step raw_mask raw_addr raw_data qa qd = .ok (as, ds))) := by
  constructor
  · intro h
    subst h
    simp only [driver_and_monitor_step]
    rw [if_pos hmask]
  · intro a as d ds hqa hqd
    subst hqa hqd
    constructor
    · intro hne
      by_cases hA : raw_addr &&& MASK32 ≠ a
      · refine ⟨.addressMismatch (raw_addr &&& MASK32) a, ?_⟩
        simp only [driver_and_monitor_step]
        rw [if_pos hmask, if_pos hA]
      · have hA' : raw_addr &&& MASK32 = a := by omega
        have hD : raw_data &&& MASK32 ≠ d := by
          rcases hne with h | h
          · exact absurd hA'.symm h
          · omega
        refine ⟨.dataMismatch (raw_addr &&& MASK32) (raw_data &&& MASK32) d, ?_⟩
        simp only [driver_and_monitor_step]
        rw [if_pos hmask, if_neg hA, if_pos hD]
    · intro h1 h2
      subst h1 h2
      simp only [driver_and_monitor_step]
      rw [if_pos hmask, if_neg (by omega), if_neg (by omega)]

/-- Witness for C8: an unpredicted write with full byte mask fails with the
unexpected-write error. -/
theorem monitor_step_spec_witness :
    driver_and_monitor_step 0xF 0x100 0xDEAD [] [] =
      .error (.unexpectedWrite (0x100 &&& MASK32) (0xDEAD &&& MASK32) (0xF &&& 0xF)) :=
  (monitor_step_spec 0xF 0x100 0xDEAD [] [] (by decide)).1 rfl

/-! ## C3: encoder operand validation -/

/-- C3 counterexample: the I-type shift encoder does not reject the
out-of-range shift amount 32; it masks it to five bits and returns the same
word as shift amount 0 — a silently truncated encoding, not an error. -/
theorem i_shift_encoder_truncates :
    slli_encoder 1 1 32 = .ok 0x00009093 ∧ slli_encoder 1 1 0 = .ok 0x00009093 :=
  ⟨rfl, rfl⟩

/-- C3 amended: compressed-form register operands outside x8-x15 are rejected
with an error before encoding, but the I-type shift encoders mask the shift
amount with 0x1F, so an out-of-range shift amount is silently reduced modulo
32 instead of raising an error. -/
theorem encoders_reject_or_truncate :
    (∀ reg : ℕ,
      (8 ≤ reg ∧ reg ≤ 15 → compress_reg reg = .ok (reg - 8)) ∧
      (¬(8 ≤ reg ∧ reg ≤ 15) → compress_reg reg = .error .operandOutOfRange)) ∧
    (∀ f3 f7 rd rs1 sh : ℕ,
      make_i_shift_encoder f3 f7 rd rs1 sh = make_i_shift_encoder f3 f7 rd rs1 (sh % 32)) := by
  constructor
  · intro reg
    constructor
    · intro h
      simp [compress_reg, h]
    · intro h
      simp [compress_reg, h]
  · intro f3 f7 rd rs1 sh
    unfold make_i_shift_encoder
    have h31 : (0x1F : ℕ) = 2 ^ 5 - 1 := rfl
    have : sh &&& 0x1F = (sh % 32) &&& 0x1F := by
      rw [h31, Nat.and_pow_two_sub_one_eq_mod, Nat.and_pow_two_sub_one_eq_mod]
      omega
    rw [this]

/-- Witness for the amended C3: register x20 is rejected by the compressed
encoder, while shift amount 33 silently encodes as shift amount 1. -/
theorem encoders_reject_or_truncate_witness :
    compress_reg 20 = .error .operandOutOfRange ∧
    make_i_shift_encoder 1 0 1 1 33 = make_i_shift_encoder 1 0 1 1 (33 % 32) :=
  ⟨(encoders_reject_or_truncate.1 20).2 (by decide),
    encoders_reject_or_truncate.2 1 0 1 1 33⟩

/-! ## C6: branch decision model -/

lemma land_pow_eq (x i : ℕ) : x &&& 2 ^ i = x / 2 ^ i % 2 * 2 ^ i := by
  rw [Nat.and_two_pow, Nat.testBit_to_div_mod]
  rcases Nat.mod_two_eq_zero_or_one (x / 2 ^ i) with h | h
  · simp [h]
  · simp [h]

lemma to_signed32_eq (x : ℤ) (h0 : 0 ≤ x) (h32 : x < 2 ^ 32) :
    to_signed32 x = twosComplementView x := by
  simp only [to_signed32, sign_extend, twosComplementView]
  have hemod : x.emod (2 ^ 32) = x := Int.emod_eq_of_lt h0 h32
  rw [hemod]
  have hs : (1 <<< (32 - 1) : ℕ) = 2 ^ 31 := by norm_num [Nat.shiftLeft_eq]
  rw [hs]
  rw [Nat.and_pow_two_sub_one_eq_mod, land_pow_eq]
  split_ifs with hlt <;> omega

/-- C6: the branch model decides beq and bne by raw equality, blt and bge by
signed comparison after 32-bit two's-complement reinterpretation, bltu and
bgeu by unsigned comparison of the masked values, and fails on any other
operation string. -/
theorem branch_decision_spec (a b : ℤ) (h0a : 0 ≤ a) (ha : a < 2 ^ 32)
    (h0b : 0 ≤ b) (hb : b < 2 ^ 32) :
    branch_taken_decision "beq" a b = .ok (decide (a = b)) ∧
    branch_taken_decision "bne" a b = .ok (decide (a ≠ b)) ∧
    branch_taken_decision "blt" a b =
      .ok (decide (twosComplementView a < twosComplementView b)) ∧
    branch_taken_decision "bge" a b =
      .ok (decide (twosComplementView a ≥ twosComplementView b)) ∧
    branch_taken_decision "bltu" a b = .ok (decide (a < b)) ∧
    branch_taken_decision "bgeu" a b = .ok (decide (a ≥ b)) ∧
    ∀ op : String, op ≠ "beq" → op ≠ "bne" → op ≠ "blt" → op ≠ "bge" →
      op ≠ "bltu" → op ≠ "bgeu" →
      branch_taken_decision op a b = .error .invalidBranchOperation := by
  have hea : a.emod 4294967296 = a := Int.emod_eq_of_lt h0a (by omega)
  have heb : b.emod 4294967296 = b := Int.emod_eq_of_lt h0b (by omega)
  refine ⟨by simp [branch_taken_decision], by simp [branch_taken_decision], ?_, ?_, ?_, ?_, ?_⟩
  · simp [branch_taken_decision, to_signed32_eq a h0a ha, to_signed32_eq b h0b hb]
  · simp [branch_taken_decision, to_signed32_eq a h0a ha, to_signed32_eq b h0b hb]
  · simp [branch_taken_decision, hea, heb]
  · simp [branch_taken_decision, hea, heb]
  · intro op n1 n2 n3 n4 n5 n6
    simp [branch_taken_decision, n1, n2, n3, n4, n5, n6]

/-- Witness for C6: comparing 5 with 0xFFFFFFFF, the signed view of the
latter being -1, the signed less-than decision is false. -/
theorem branch_decision_spec_witness :
    branch_taken_decision "blt" 5 0xFFFFFFFF =
      .ok (decide (twosComplementView 5 < twosComplementView 0xFFFFFFFF)) :=
  (branch_decision_spec 5 0xFFFFFFFF (by norm_num) (by norm_num) (by norm_num)
    (by norm_num)).2.2.1

/-! ## C2: store-conditional probe-and-clear protocol -/

/-- C2: the store-conditional model succeeds exactly when the tracker holds a
reservation on the word-aligned address (rs1 value with its low two bits
cleared); on success rd receives 0 and exactly one memory-write expectation
(that address and the rs2 value) is queued and applied to the memory model;
on failure rd receives 1 and nothing is queued or written; the reservation is
cleared unconditionally, so an immediately following store-conditional (to
the same or any address) fails. -/
theorem execute_sc_probe_and_clear (amask walign : ℕ) (st : TestState) (mem : Ram)
    (rd rs1 rs2 : Fin 32) (hrd : rd ≠ 0) :
    ((execute_sc amask walign st mem rd rs1 rs2).1 = true ↔
      st.reservation = some (word_aligned (st.register_file_previous rs1))) ∧
    ((execute_sc amask walign st mem rd rs1 rs2).1 = true →
      (execute_sc amask walign st mem rd rs1 rs2).2.1.memory_write_address_expected_queue =
        st.memory_write_address_expected_queue ++
          [word_aligned (st.register_file_previous rs1)] ∧
      (execute_sc amask walign st mem rd rs1 rs2).2.1.memory_write_data_expected_queue =
        st.memory_write_data_expected_queue ++ [st.register_file_previous rs2] ∧
      (execute_sc amask walign st mem rd rs1 rs2).2.2 =
        write_word amask walign mem (word_aligned (st.register_file_previous rs1))
          (st.register_file_previous rs2) ∧
      (execute_sc amask walign st mem rd rs1 rs2).2.1.register_file_current rd = 0) ∧
    ((execute_sc amask walign st mem rd rs1 rs2).1 = false →
      (execute_sc amask walign st mem rd rs1 rs2).2.1.memory_write_address_expected_queue =
        st.memory_write_address_expected_queue ∧
      (execute_sc amask walign st mem rd rs1 rs2).2.1.memory_write_data_expected_queue =
        st.memory_write_data_expected_queue ∧
      (execute_sc amask walign st mem rd rs1 rs2).2.2 = mem ∧
      (execute_sc amask walign st mem rd rs1 rs2).2.1.register_file_current rd = 1) ∧
    (execute_sc amask walign st mem rd rs1 rs2).2.1.reservation = none ∧
    (∀ (rd2 rs12 rs22 : Fin 32) (mem2 : Ram),
      (execute_sc amask walign (execute_sc amask walign st mem rd rs1 rs2).2.1 mem2
        rd2 rs12 rs22).1 = false) := by
  have h0 : (0 &&& MASK32 : ℕ) = 0 := by simp
  have h1 : (1 &&& MASK32 : ℕ) = 1 := rfl
  by_cases hres : st.reservation = some (word_aligned (st.register_file_previous rs1))
  · refine ⟨by simp [execute_sc, check_reservation, hres], ?_, ?_, ?_, ?_⟩
    · intro _
      simp [execute_sc, check_reservation, clear_reservation, queue_expected_outputs,
        advance_register_state, update_program_counter, increment_cycle_counter,
        increment_instret_counter, hres, hrd, h0, Function.update_same]
    · intro hfail
      exfalso
      simp [execute_sc, check_reservation, hres] at hfail
    · simp [execute_sc, check_reservation, clear_reservation, queue_expected_outputs,
        advance_register_state, update_program_counter, increment_cycle_counter,
        increment_instret_counter, hres, hrd]
    · intro rd2 rs12 rs22 mem2
      simp [execute_sc, check_reservation, clear_reservation, queue_expected_outputs,
        advance_register_state, update_program_counter, increment_cycle_counter,
        increment_instret_counter, hres, hrd]
  · refine ⟨by simp [execute_sc, check_reservation, hres], ?_, ?_, ?_, ?_⟩
    · intro hsucc
      exfalso
      simp [execute_sc, check_reservation, hres] at hsucc
    · intro _
      simp [execute_sc, check_reservation, clear_reservation, queue_expected_outputs,
        advance_register_state, update_program_counter, increment_cycle_counter,
        increment_instret_counter, hres, hrd, h1, Function.update_same]
    · simp [execute_sc, check_reservation, clear_reservation, queue_expected_outputs,
        advance_register_state, update_program_counter, increment_cycle_counter,
        increment_instret_counter, hres, hrd]
    · intro rd2 rs12 rs22 mem2
      simp [execute_sc, check_reservation, clear_reservation, queue_expected_outputs,
        advance_register_state, update_program_counter, increment_cycle_counter,
        increment_instret_counter, hres, hrd]

/-- Witness for C2: with the reservation set to 0x100 and x10 holding 0x100,
a store-conditional succeeds and leaves the reservation empty. -/
theorem execute_sc_probe_and_clear_witness :
    (execute_sc 0xFFF 0xFFC sampleState [] 6 10 12).1 = true ∧
    (execute_sc 0xFFF 0xFFC sampleState [] 6 10 12).2.1.reservation = none :=
  ⟨(execute_sc_probe_and_clear 0xFFF 0xFFC sampleState [] 6 10 12 (by decide)).1.mpr
      (by decide),
    (execute_sc_probe_and_clear 0xFFF 0xFFC sampleState [] 6 10 12
      (by decide)).2.2.2.1⟩

/-! ## C7: fclass one-hot classification -/

lemma exp_field_eq (b : ℕ) : (b &&& FP_EXP_MASK) >>> 23 = b / 2 ^ 23 % 256 := by
  have hm : FP_EXP_MASK = 0xFF <<< 23 := rfl
  apply Nat.eq_of_testBit_eq
  intro i
  rw [hm, show (256 : ℕ) = 2 ^ 8 from rfl, ← Nat.shiftRight_eq_div_pow]
  simp only [Nat.testBit_shiftRight, Nat.testBit_and, Nat.testBit_shiftLeft,
    Nat.testBit_mod_two_pow]
  have e : 23 + i - 23 = i := by omega
  have g : 23 ≤ 23 + i := by omega
  rw [e]
  by_cases h8 : i < 8
  · have ht : (0xFF : ℕ).testBit i = true := by
      interval_cases i <;> decide
    simp [ht, g, h8, Bool.and_comm]
  · have ht : (0xFF : ℕ).testBit i = false := by
      apply Nat.testBit_lt_two_pow
      calc (0xFF : ℕ) < 2 ^ 8 := by norm_num
      _ ≤ 2 ^ i := Nat.pow_le_pow_right (by norm_num) (by omega)
    simp [ht, h8]

set_option maxHeartbeats 1600000

/-- C7: for every 32-bit pattern the classifier returns exactly the one-hot
mask 2^i where i is the category index of the input among the ten classes
negative infinity, negative normal, negative subnormal, negative zero,
positive zero, positive subnormal, positive normal, positive infinity,
signaling NaN and quiet NaN. -/
theorem fclass_one_hot (bits : ℕ) (h : bits < 2 ^ 32) :
    fclass_s bits = 1 <<< fclassIndex bits ∧ fclassIndex bits < 10 := by
  have hexp := exp_field_eq bits
  have hmant : bits &&& FP_MANT_MASK = bits % 2 ^ 23 := by
    have e : FP_MANT_MASK = 2 ^ 23 - 1 := rfl
    rw [e, Nat.and_pow_two_sub_one_eq_mod]
  have hz : bits &&& 0x7FFFFFFF = bits % 2 ^ 31 := by
    have e : (0x7FFFFFFF : ℕ) = 2 ^ 31 - 1 := rfl
    rw [e, Nat.and_pow_two_sub_one_eq_mod]
  have hsgn : bits &&& FP_SIGN_MASK = bits / 2 ^ 31 % 2 * 2 ^ 31 := by
    have e : FP_SIGN_MASK = 2 ^ 31 := rfl
    rw [e, land_pow_eq]
  have hquiet : bits % 2 ^ 23 &&& 0x400000 = bits % 2 ^ 23 / 2 ^ 22 % 2 * 2 ^ 22 := by
    have e : (0x400000 : ℕ) = 2 ^ 22 := rfl
    rw [e, land_pow_eq]
  have htb : bits.testBit 22 = decide (bits / 2 ^ 22 % 2 = 1) := Nat.testBit_to_div_mod
  have key1 : bits % 2 ^ 31 = bits % 2 ^ 23 + 2 ^ 23 * (bits / 2 ^ 23 % 256) := by omega
  have key2 : bits % 2 ^ 23 / 2 ^ 22 % 2 = bits / 2 ^ 22 % 2 := by omega
  simp only [fclass_s, fclassIndex, is_nan, is_inf, is_zero, is_subnormal, is_negative,
    hexp, hmant, hz, hsgn, hquiet, htb, Bool.and_eq_true, decide_eq_true_eq, ne_eq,
    Nat.shiftLeft_eq, one_mul]
  generalize h1 : bits % 2 ^ 23 = m
  rw [h1] at key1 key2
  generalize h2 : bits / 2 ^ 23 % 256 = e
  rw [h2] at key1
  generalize h3 : bits % 2 ^ 31 = z
  rw [h3] at key1
  generalize h4 : bits / 2 ^ 31 % 2 = s
  generalize h5 : bits / 2 ^ 22 % 2 = q
  rw [h5] at key2
  constructor
  · split_ifs <;> omega
  · split_ifs <;> omega

/-- Witness for C7: the pattern 0xFF800000 is negative infinity, category 0. -/
theorem fclass_one_hot_witness :
    fclass_s 0xFF800000 = 1 <<< fclassIndex 0xFF800000 :=
  (fclass_one_hot 0xFF800000 (by norm_num)).1

/-! ## C5: division special cases -/

lemma is_zero_exp (b : ℕ) (hb : b < 2 ^ 32) (hz : is_zero b = true) :
    is_nan b = false ∧ is_inf b = false := by
  simp only [is_zero, decide_eq_true_eq] at hz
  rw [show (0x7FFFFFFF : ℕ) = 2 ^ 31 - 1 from rfl, Nat.and_pow_two_sub_one_eq_mod] at hz
  have he : (b &&& FP_EXP_MASK) >>> 23 ≠ 255 := by
    rw [exp_field_eq]
    omega
  constructor <;> simp [is_nan, is_inf, he]

lemma is_inf_not_nan (b : ℕ) (hi : is_inf b = true) : is_nan b = false := by
  simp only [is_inf, Bool.and_eq_true, decide_eq_true_eq] at hi
  simp [is_nan, hi.2]

/-- C5: the division model applies its special cases before any generic
computation: a NaN operand gives the canonical quiet NaN 0x7FC00000; infinity
over infinity and zero over zero give the canonical quiet NaN; and a zero
divisor with a finite non-zero dividend gives the infinity whose sign bit is
the exclusive or of the operand sign bits. -/
theorem fdiv_special_cases (a b : ℕ) (ha : a < 2 ^ 32) (hb : b < 2 ^ 32) :
    ((is_nan a || is_nan b) = true → fdiv_s a b = FP_CANONICAL_NAN) ∧
    (is_inf a = true → is_inf b = true → fdiv_s a b = FP_CANONICAL_NAN) ∧
    (is_zero a = true → is_zero b = true → fdiv_s a b = FP_CANONICAL_NAN) ∧
    (is_zero b = true → is_nan a = false → is_inf a = false → is_zero a = false →
      fdiv_s a b = (if is_negative a ≠ is_negative b then FP_NEG_INF else FP_POS_INF)) := by
  refine ⟨?_, ?_, ?_, ?_⟩
  · intro h
    simp [fdiv_s, h]
  · intro h1 h2
    simp [fdiv_s, is_inf_not_nan a h1, is_inf_not_nan b h2, h1, h2]
  · intro h1 h2
    have hz1 := is_zero_exp a ha h1
    have hz2 := is_zero_exp b hb h2
    simp [fdiv_s, hz1.1, hz1.2, hz2.1, hz2.2, h1, h2]
  · intro hzb hna hia hza
    have hz2 := is_zero_exp b hb hzb
    have hx : (a ^^^ b) &&& FP_SIGN_MASK =
        (if is_negative a ≠ is_negative b then 2 ^ 31 else 0) := by
      rw [show FP_SIGN_MASK = 2 ^ 31 from rfl, Nat.and_two_pow, Nat.testBit_xor]
      simp only [is_negative, show FP_SIGN_MASK = 2 ^ 31 from rfl, Nat.and_two_pow]
      rcases Bool.eq_false_or_eq_true (a.testBit 31) with hA | hA <;>
        rcases Bool.eq_false_or_eq_true (b.testBit 31) with hB | hB <;>
          simp [hA, hB]
    rw [show fdiv_s a b = FP_POS_INF ||| ((a ^^^ b) &&& FP_SIGN_MASK) from by
      simp [fdiv_s, hna, hz2.1, hia, hz2.2, hza, hzb]]
    rw [hx]
    split_ifs with hs
    · decide
    · decide

/-- Witness for C5: a NaN dividend yields the canonical quiet NaN. -/
theorem fdiv_special_cases_witness :
    fdiv_s 0x7FC00000 0x3F800000 = FP_CANONICAL_NAN :=
  (fdiv_special_cases 0x7FC00000 0x3F800000 (by norm_num) (by norm_num)).1 (by decide)

/-! ## Rounding helper lemmas -/

lemma rneInt_le (x : ℚ) : (rneInt x : ℚ) ≤ x + 1 / 2 := by
  simp only [rneInt]
  have h1 : (⌊x⌋ : ℚ) ≤ x := Int.floor_le x
  have h2 : x < ⌊x⌋ + 1 := Int.lt_floor_add_one x
  split_ifs <;> push_cast <;> linarith

lemma le_rneInt (x : ℚ) : x - 1 / 2 ≤ (rneInt x : ℚ) := by
  simp only [rneInt]
  have h1 : (⌊x⌋ : ℚ) ≤ x := Int.floor_le x
  have h2 : x < ⌊x⌋ + 1 := Int.lt_floor_add_one x
  split_ifs with hf hg <;> push_cast <;> linarith

lemma shiftLeft_lor_eq_add (a i b : ℕ) (hb : b < 2 ^ i) :
    a <<< i ||| b = a * 2 ^ i + b := by
  rw [show a * 2 ^ i + b = 2 ^ i * a + b by ring]
  apply Nat.eq_of_testBit_eq
  intro j
  rw [Nat.testBit_mul_pow_two_add a hb j]
  simp only [Nat.testBit_or, Nat.testBit_shiftLeft]
  by_cases hji : j < i
  · simp [hji, (by omega : ¬ i ≤ j)]
  · have hbz : b.testBit j = false :=
      Nat.testBit_lt_two_pow
        (lt_of_lt_of_le hb (Nat.pow_le_pow_right (by norm_num) (by omega)))
    simp [hji, hbz, (by omega : i ≤ j)]

lemma land_one (x : ℕ) : x &&& 1 = x % 2 := by
  simpa using Nat.and_pow_two_sub_one_eq_mod x 1

lemma hidden_bit_lor (m : ℕ) (hm : m < 2 ^ 23) : 0x800000 ||| m = 2 ^ 23 + m := by
  have h := shiftLeft_lor_eq_add 1 23 m hm
  simpa [Nat.shiftLeft_eq] using h

lemma exp_field_shift (bits : ℕ) : (bits >>> 23) &&& 0xFF = bits / 2 ^ 23 % 256 := by
  rw [Nat.shiftRight_eq_div_pow, show (0xFF : ℕ) = 2 ^ 8 - 1 from rfl,
    Nat.and_pow_two_sub_one_eq_mod]

lemma mant_field (bits : ℕ) : bits &&& 0x7FFFFF = bits % 2 ^ 23 := by
  rw [show (0x7FFFFF : ℕ) = 2 ^ 23 - 1 from rfl, Nat.and_pow_two_sub_one_eq_mod]

/-- The decode of a binary32 bit pattern, written with arithmetic field
extraction: sign is bit 31, a zero exponent field gives a subnormal or zero
magnitude, a non-zero one restores the hidden bit. -/
lemma float32_to_decimal_eq (bits : ℕ) :
    float32_to_decimal bits =
      if bits / 2 ^ 23 % 256 = 0 then
        { neg := decide (bits / 2 ^ 31 % 2 = 1),
          mag := ((bits % 2 ^ 23 : ℕ) : ℚ) * (2 : ℚ) ^ (-149 : ℤ) }
      else
        { neg := decide (bits / 2 ^ 31 % 2 = 1),
          mag := ((2 ^ 23 + bits % 2 ^ 23 : ℕ) : ℚ) *
            (2 : ℚ) ^ (((bits / 2 ^ 23 % 256 : ℕ) : ℤ) - 150) } := by
  simp only [float32_to_decimal]
  have hsign : (bits >>> 31) &&& 1 = bits / 2 ^ 31 % 2 := by
    rw [Nat.shiftRight_eq_div_pow, land_one]
  have hlor : (0x800000 ||| bits % 2 ^ 23 : ℕ) = 2 ^ 23 + bits % 2 ^ 23 :=
    hidden_bit_lor _ (Nat.mod_lt _ (by norm_num))
  rw [exp_field_shift, hsign, mant_field, hlor]

/-! ## C10: float-to-signed-integer conversion -/

lemma float32_val_upper (bits : ℕ) (h32 : bits < 2 ^ 32) (hnan : is_nan bits = false)
    (hinf : is_inf bits = false) (hlt : float32_val bits < 2 ^ 31) :
    float32_val bits ≤ 2 ^ 31 - 128 := by
  have hexp : (bits &&& FP_EXP_MASK) >>> 23 = bits / 2 ^ 23 % 256 := exp_field_eq bits
  have hne : bits / 2 ^ 23 % 256 ≠ 255 := by
    intro hcontra
    by_cases hm : bits &&& FP_MANT_MASK = 0
    · have : is_inf bits = true := by
        unfold is_inf
        rw [hexp, hcontra, hm]
        rfl
      rw [this] at hinf
      exact Bool.noConfusion hinf
    · have : is_nan bits = true := by
        unfold is_nan
        rw [hexp, hcontra]
        simp [hm]
      rw [this] at hnan
      exact Bool.noConfusion hnan
  unfold float32_val at hlt ⊢
  rw [float32_to_decimal_eq] at hlt ⊢
  have hmlt : bits % 2 ^ 23 < 2 ^ 23 := Nat.mod_lt _ (by norm_num)
  by_cases hE0 : bits / 2 ^ 23 % 256 = 0
  · rw [if_pos hE0] at hlt ⊢
    unfold SDec.toRat at hlt ⊢
    simp only at hlt ⊢
    split_ifs with hs
    · have hpos : (0 : ℚ) ≤ ((bits % 2 ^ 23 : ℕ) : ℚ) * (2 : ℚ) ^ (-149 : ℤ) := by
        positivity
      have hb : (0 : ℚ) ≤ (2 : ℚ) ^ 31 - 128 := by norm_num
      linarith
    · have hmq : ((bits % 2 ^ 23 : ℕ) : ℚ) ≤ 2 ^ 23 := by exact_mod_cast hmlt.le
      have hp : (2 : ℚ) ^ (-149 : ℤ) ≤ 2 ^ (0 : ℤ) :=
        zpow_le_zpow_right₀ (by norm_num) (by norm_num)
      have hmul : ((bits % 2 ^ 23 : ℕ) : ℚ) * (2 : ℚ) ^ (-149 : ℤ) ≤ 2 ^ 23 * 2 ^ (0 : ℤ) :=
        mul_le_mul hmq hp (by positivity) (by positivity)
      have h1 : (2 : ℚ) ^ 23 * 2 ^ (0 : ℤ) = 2 ^ 23 := by norm_num
      have h2 : (2 : ℚ) ^ 23 ≤ 2 ^ 31 - 128 := by norm_num
      linarith
  · rw [if_neg hE0] at hlt ⊢
    unfold SDec.toRat at hlt ⊢
    simp only at hlt ⊢
    set E := bits / 2 ^ 23 % 256 with hE
    have hElt : E < 256 := Nat.mod_lt _ (by norm_num)
    split_ifs with hs
    · have hpos : (0 : ℚ) ≤ ((2 ^ 23 + bits % 2 ^ 23 : ℕ) : ℚ) * (2 : ℚ) ^ ((E : ℤ) - 150) := by
        positivity
      have hb : (0 : ℚ) ≤ (2 : ℚ) ^ 31 - 128 := by norm_num
      linarith
    · rw [if_neg hs] at hlt
      by_cases hEsmall : E ≤ 156
      · have hzp : (2 : ℚ) ^ ((E : ℤ) - 150) ≤ 2 ^ (6 : ℤ) :=
          zpow_le_zpow_right₀ (by norm_num) (by omega)
        have hMq : ((2 ^ 23 + bits % 2 ^ 23 : ℕ) : ℚ) ≤ 2 ^ 24 - 1 := by
          have h' : (2 ^ 23 + bits % 2 ^ 23 : ℕ) ≤ 2 ^ 24 - 1 := by omega
          have h3 : ((2 ^ 23 + bits % 2 ^ 23 : ℕ) : ℚ) ≤ (((2 : ℕ) ^ 24 - 1 : ℕ) : ℚ) := by
            exact_mod_cast h'
          have h2 : (((2 : ℕ) ^ 24 - 1 : ℕ) : ℚ) = 2 ^ 24 - 1 := by norm_num
          linarith
        have hval : ((2 ^ 23 + bits % 2 ^ 23 : ℕ) : ℚ) * (2 : ℚ) ^ ((E : ℤ) - 150) ≤
            (2 ^ 24 - 1) * 2 ^ (6 : ℤ) :=
          mul_le_mul hMq hzp (by positivity) (by positivity)
        have h6 : (2 : ℚ) ^ (6 : ℤ) = 64 := by norm_num
        rw [h6] at hval
        have h1 : ((2 : ℚ) ^ 24 - 1) * 64 ≤ 2 ^ 31 - 128 := by norm_num
        linarith
      · have ht : ((E : ℤ) - 150) = ((E - 150 : ℕ) : ℤ) := by omega
        rw [ht, zpow_natCast] at hlt ⊢
        have ht7 : 7 ≤ E - 150 := by omega
        have hcast : ((2 ^ 23 + bits % 2 ^ 23 : ℕ) : ℚ) * (2 : ℚ) ^ (E - 150) =
            (((2 ^ 23 + bits % 2 ^ 23) * 2 ^ (E - 150) : ℕ) : ℚ) := by
          push_cast
          ring
        rw [hcast] at hlt ⊢
        have h31 : ((2 ^ 31 : ℕ) : ℚ) = 2 ^ 31 := by norm_num
        have hNlt : (2 ^ 23 + bits % 2 ^ 23) * 2 ^ (E - 150) < 2 ^ 31 := by
          rw [← h31] at hlt
          exact_mod_cast hlt
        have hsplit : (2 : ℕ) ^ (E - 150) = 2 ^ (E - 150 - 7) * 128 := by
          have he : E - 150 = (E - 150 - 7) + 7 := by omega
          rw [he, pow_add]
          norm_num
        have hN : (2 ^ 23 + bits % 2 ^ 23) * 2 ^ (E - 150) ≤ 2 ^ 31 - 128 := by
          rw [hsplit] at hNlt ⊢
          rw [← mul_assoc] at hNlt ⊢
          omega
        have hfin : (((2 ^ 23 + bits % 2 ^ 23) * 2 ^ (E - 150) : ℕ) : ℚ) ≤
            ((2 ^ 31 - 128 : ℕ) : ℚ) := by exact_mod_cast hN
        have heq : ((2 ^ 31 - 128 : ℕ) : ℚ) = 2 ^ 31 - 128 := by norm_num
        linarith

/-- C10: the float-to-signed-word conversion is total and saturating: NaN
maps to the most positive value 0x7FFFFFFF (not the most negative), positive
infinity and finite values at least 2^31 map to 0x7FFFFFFF, negative
infinity and finite values below -2^31 map to 0x80000000, and every in-range
finite value is rounded to the nearest integer with ties to even and
returned masked to 32 bits. -/
theorem fcvt_w_s_total_saturating (bits : ℕ) (h : bits < 2 ^ 32) :
    fcvt_w_s bits = fcvt_w_s_spec bits := by
  unfold fcvt_w_s fcvt_w_s_spec round_to_nearest_even
  cases hn : is_nan bits
  · cases hi : is_inf bits
    · simp only [hn, hi, Bool.false_eq_true, if_false]
      set f := float32_val bits with hf
      by_cases hA : (2147483648 : ℚ) ≤ f
      · simp [hA]
      · by_cases hB : f < -2147483648
        · simp [hA, hB]
        · have hub : rneInt f ≤ 2147483647 := by
            have hbound : f ≤ 2 ^ 31 - 128 :=
              float32_val_upper bits h hn hi (by push_cast; linarith [not_le.mp hA])
            have h1 : (rneInt f : ℚ) ≤ (2 ^ 31 - 128 : ℚ) + 1 / 2 :=
              le_trans (rneInt_le f) (by linarith)
            have h2 : (rneInt f : ℚ) < ((2147483648 : ℤ) : ℚ) := by
              push_cast
              linarith
            have h3 : rneInt f < 2147483648 := by exact_mod_cast h2
            omega
          have hlb : -2147483648 ≤ rneInt f := by
            have h1 : (f : ℚ) - 1 / 2 ≤ (rneInt f : ℚ) := le_rneInt f
            have h2 : ((-2147483649 : ℤ) : ℚ) < (rneInt f : ℚ) := by
              push_cast
              linarith [not_lt.mp hB]
            have h3 : (-2147483649 : ℤ) < rneInt f := by exact_mod_cast h2
            omega
          simp only [hA, hB, if_false]
          rw [if_neg (by omega : ¬ (2147483647 : ℤ) < rneInt f),
            if_neg (by omega : ¬ rneInt f < (-2147483648 : ℤ))]
    · cases hneg : is_negative bits <;> simp [hn, hi, hneg]
  · simp [hn]

/-- Witness for C10 at the canonical NaN input. -/
theorem fcvt_w_s_total_saturating_witness :
    fcvt_w_s 0x7FC00000 = fcvt_w_s_spec 0x7FC00000 :=
  fcvt_w_s_total_saturating 0x7FC00000 (by norm_num)

/-! ## C1: fused multiply-add with a single rounding

The correctness of `decimal_to_float32` against the ideal round-to-nearest
-even is built in stages: the guard/round/sticky step is shown to compute
`rneInt` of the significand, then each exponent range of the conversion is
matched against the ideal rounding. -/

lemma rneInt_intCast (c : ℤ) : rneInt (c : ℚ) = c := by
  simp only [rneInt]
  rw [Int.floor_intCast]
  norm_num

lemma rneInt_ge_int (x : ℚ) (c : ℤ) (h : (c : ℚ) ≤ x) : c ≤ rneInt x := by
  have h1 := le_rneInt x
  have h2 : ((c - 1 : ℤ) : ℚ) < (rneInt x : ℚ) := by push_cast; linarith
  have h3 : c - 1 < rneInt x := by exact_mod_cast h2
  omega

lemma rneInt_le_int (x : ℚ) (c : ℤ) (h : x ≤ (c : ℚ)) : rneInt x ≤ c := by
  have h1 := rneInt_le x
  have h2 : (rneInt x : ℚ) < ((c + 1 : ℤ) : ℚ) := by push_cast; linarith
  have h3 : rneInt x < c + 1 := by exact_mod_cast h2
  omega

lemma rneInt_eq_zero_of_lt_half (x : ℚ) (h0 : 0 ≤ x) (h : x < 1 / 2) : rneInt x = 0 := by
  simp only [rneInt]
  have hfl : ⌊x⌋ = 0 := Int.floor_eq_zero_iff.mpr ⟨h0, by linarith⟩
  rw [hfl]
  norm_num
  intro hc
  linarith

/-- Guard/round/sticky correctness: with the significand scaled by 2^27, the
mantissa field is the floor and the round-up decision computed from the
guard, round, sticky and lsb bits realises round-to-nearest-even. -/
lemma grs_core (x : ℚ) (hx : 0 < x) :
    (⌊x * 2 ^ 27⌋).toNat >>> 27 = (⌊x⌋).toNat ∧
    ((if ((⌊x * 2 ^ 27⌋).toNat >>> 26) &&& 1 &&&
        (((⌊x * 2 ^ 27⌋).toNat >>> 25) &&& 1 |||
          (if (⌊x * 2 ^ 27⌋).toNat &&& 0x1FFFFFF ≠ 0 ∨ x * 2 ^ 27 ≠ ((⌊x * 2 ^ 27⌋).toNat : ℚ)
            then 1 else 0) |||
          ((⌊x * 2 ^ 27⌋).toNat >>> 27) &&& 1) ≠ 0
      then (⌊x * 2 ^ 27⌋).toNat >>> 27 + 1 else (⌊x * 2 ^ 27⌋).toNat >>> 27) =
      (rneInt x).toNat) := by
  have hn0 : (0 : ℤ) ≤ ⌊x⌋ := Int.floor_nonneg.mpr hx.le
  set n := ⌊x⌋ with hn
  set f := x - (n : ℚ) with hf
  have hf0 : 0 ≤ f := by rw [hf]; linarith [Int.floor_le x]
  have hf1 : f < 1 := by rw [hf]; linarith [Int.lt_floor_add_one x]
  have hxnf : x = (n : ℚ) + f := by rw [hf]; ring
  have hT : ⌊x * 2 ^ 27⌋ = n * 2 ^ 27 + ⌊f * 2 ^ 27⌋ := by
    conv_lhs => rw [hxnf]
    have he : ((n : ℚ) + f) * 2 ^ 27 = f * 2 ^ 27 + ((n * 2 ^ 27 : ℤ) : ℚ) := by
      push_cast
      ring
    rw [he, Int.floor_add_int]
    ring
  set T := ⌊f * 2 ^ 27⌋ with hTd
  have hT0 : 0 ≤ T := Int.floor_nonneg.mpr (by positivity)
  have hTlt : T < 2 ^ 27 := by
    have h1 : f * 2 ^ 27 < 2 ^ 27 := by nlinarith
    exact Int.floor_lt.mpr (by push_cast; linarith)
  have hTle : (T : ℚ) ≤ f * 2 ^ 27 := Int.floor_le _
  have hTgt : f * 2 ^ 27 < (T : ℚ) + 1 := Int.lt_floor_add_one _
  have hsiN : (⌊x * 2 ^ 27⌋).toNat = n.toNat * 2 ^ 27 + T.toNat := by omega
  have hshr27 : (⌊x * 2 ^ 27⌋).toNat >>> 27 = n.toNat := by
    rw [Nat.shiftRight_eq_div_pow, hsiN]
    omega
  refine ⟨hshr27, ?_⟩
  have hg : ((⌊x * 2 ^ 27⌋).toNat >>> 26) &&& 1 = T.toNat / 2 ^ 26 % 2 := by
    rw [Nat.shiftRight_eq_div_pow, land_one, hsiN]
    omega
  have hrb : ((⌊x * 2 ^ 27⌋).toNat >>> 25) &&& 1 = T.toNat / 2 ^ 25 % 2 := by
    rw [Nat.shiftRight_eq_div_pow, land_one, hsiN]
    omega
  have hstb : (⌊x * 2 ^ 27⌋).toNat &&& 0x1FFFFFF = T.toNat % 2 ^ 25 := by
    rw [show (0x1FFFFFF : ℕ) = 2 ^ 25 - 1 from rfl, Nat.and_pow_two_sub_one_eq_mod, hsiN]
    omega
  have hlsb : ((⌊x * 2 ^ 27⌋).toNat >>> 27) &&& 1 = n.toNat % 2 := by
    rw [hshr27, land_one]
  have hnQ : ((n.toNat : ℕ) : ℚ) = (n : ℚ) := by exact_mod_cast Int.toNat_of_nonneg hn0
  have hTQ : ((T.toNat : ℕ) : ℚ) = (T : ℚ) := by exact_mod_cast Int.toNat_of_nonneg hT0
  have hrem : (x * 2 ^ 27 ≠ ((⌊x * 2 ^ 27⌋).toNat : ℚ)) ↔ f * 2 ^ 27 ≠ (T : ℚ) := by
    have hcast : (((⌊x * 2 ^ 27⌋).toNat : ℕ) : ℚ) = (n : ℚ) * 2 ^ 27 + (T : ℚ) := by
      rw [hsiN]
      push_cast
      rw [hnQ, hTQ]
      norm_num
    have heq : (x * 2 ^ 27 = ((⌊x * 2 ^ 27⌋).toNat : ℚ)) ↔ (f * 2 ^ 27 = (T : ℚ)) := by
      rw [hcast, hxnf]
      constructor <;> intro hh <;> nlinarith
    exact not_congr heq
  rw [hg, hrb, hstb, hlsb, hshr27]
  simp only [hrem]
  simp only [rneInt]
  rw [← hn, ← hf]
  by_cases hA : T.toNat < 2 ^ 26
  · have hg0 : T.toNat / 2 ^ 26 % 2 = 0 := by omega
    have hT26 : (T : ℚ) + 1 ≤ 2 ^ 26 := by
      have : T + 1 ≤ 2 ^ 26 := by omega
      exact_mod_cast this
    have hflt : f < 1 / 2 := by nlinarith
    rw [hg0]
    simp only [Nat.zero_and]
    rw [if_neg (by simp), if_pos hflt]
  · have hg1 : T.toNat / 2 ^ 26 % 2 = 1 := by omega
    rw [hg1]
    by_cases hB : T.toNat % 2 ^ 26 ≠ 0 ∨ f * 2 ^ 27 ≠ (T : ℚ)
    · have hfgt : 1 / 2 < f := by
        rcases hB with h | h
        · have h1 : (2 : ℤ) ^ 26 < T := by omega
          have h2 : ((2 : ℚ)) ^ 26 + 1 ≤ (T : ℚ) := by exact_mod_cast h1
          nlinarith
        · have h1 : (T : ℚ) < f * 2 ^ 27 := lt_of_le_of_ne hTle (Ne.symm h)
          have h2 : (2 : ℚ) ^ 26 ≤ (T : ℚ) := by exact_mod_cast (by omega : (2 : ℤ) ^ 26 ≤ T)
          nlinarith
    -- the round-up value: show the branch is taken and compute n+1
      have hval : (if (1 : ℕ) &&&
          (T.toNat / 2 ^ 25 % 2 |||
            (if T.toNat % 2 ^ 25 ≠ 0 ∨ f * 2 ^ 27 ≠ (T : ℚ) then 1 else 0) |||
            n.toNat % 2) ≠ 0
          then n.toNat + 1 else n.toNat) = n.toNat + 1 := by
        by_cases hrb1 : T.toNat / 2 ^ 25 % 2 = 1
        · rw [hrb1]
          by_cases hst : T.toNat % 2 ^ 25 ≠ 0 ∨ f * 2 ^ 27 ≠ (T : ℚ)
          · rw [if_pos hst]
            by_cases hl : n.toNat % 2 = 1
            · rw [hl]
              norm_num
            · have hl0 : n.toNat % 2 = 0 := by omega
              rw [hl0]
              norm_num
          · rw [if_neg hst]
            by_cases hl : n.toNat % 2 = 1
            · rw [hl]
              norm_num
            · have hl0 : n.toNat % 2 = 0 := by omega
              rw [hl0]
              norm_num
        · have hrb0 : T.toNat / 2 ^ 25 % 2 = 0 := by omega
          rw [hrb0]
          have hst : T.toNat % 2 ^ 25 ≠ 0 ∨ f * 2 ^ 27 ≠ (T : ℚ) := by
            rcases hB with h | h
            · left
              omega
            · right
              exact h
          rw [if_pos hst]
          by_cases hl : n.toNat % 2 = 1
          · rw [hl]
            norm_num
          · have hl0 : n.toNat % 2 = 0 := by omega
            rw [hl0]
            norm_num
      rw [hval, if_neg (by linarith), if_pos hfgt]
      omega
    · push_neg at hB
      obtain ⟨hB1, hB2⟩ := hB
      have ht26 : T.toNat = 2 ^ 26 := by omega
      have hTQ26 : (T : ℚ) = 2 ^ 26 := by
        have : T = 2 ^ 26 := by omega
        exact_mod_cast this
      have hfeq : f = 1 / 2 := by
        rw [hTQ26] at hB2
        nlinarith
      have hrb0 : T.toNat / 2 ^ 25 % 2 = 0 := by omega
      rw [hrb0]
      have hnost : ¬(T.toNat % 2 ^ 25 ≠ 0 ∨ f * 2 ^ 27 ≠ (T : ℚ)) := by
        rintro (hcon | hcon)
        · omega
        · exact hcon hB2
      rw [if_neg hnost]
      simp only [Nat.zero_or]
      by_cases hpar : n % 2 = 0
      · have hp2 : n.toNat % 2 = 0 := by omega
        rw [hp2]
        rw [if_neg (by decide : ¬ ((1 : ℕ) &&& 0 ≠ 0))]
        rw [if_neg (by rw [hfeq]; norm_num), if_neg (by rw [hfeq]; norm_num), if_pos hpar]
      · have hp2 : n.toNat % 2 = 1 := by omega
        rw [hp2]
        rw [if_pos (by decide : ((1 : ℕ) &&& 1 ≠ 0))]
        rw [if_neg (by rw [hfeq]; norm_num), if_neg (by rw [hfeq]; norm_num), if_neg hpar]
        omega

lemma log2_lower (q : ℚ) (hq : 0 < q) : (2 : ℚ) ^ (Int.log 2 q) ≤ q := by
  have h := Int.zpow_log_le_self (by norm_num : (1 : ℕ) < 2) hq
  exact_mod_cast h

lemma log2_upper (q : ℚ) : q < (2 : ℚ) ^ (Int.log 2 q + 1) := by
  have h := Int.lt_zpow_succ_log_self (by norm_num : (1 : ℕ) < 2) q
  exact_mod_cast h

lemma x_lower (q : ℚ) (e s : ℤ) (hle : (2 : ℚ) ^ e ≤ q) :
    (2 : ℚ) ^ (e + s) ≤ q * (2 : ℚ) ^ s := by
  rw [zpow_add₀ (by norm_num : (2 : ℚ) ≠ 0)]
  exact mul_le_mul_of_nonneg_right hle (zpow_pos (by norm_num) s).le

lemma x_upper (q : ℚ) (e s : ℤ) (hlt : q < (2 : ℚ) ^ e) :
    q * (2 : ℚ) ^ s < (2 : ℚ) ^ (e + s) := by
  rw [zpow_add₀ (by norm_num : (2 : ℚ) ≠ 0)]
  exact mul_lt_mul_of_pos_right hlt (zpow_pos (by norm_num) s)

lemma d2f_ideal_overflow (d : SDec) (hq : 0 < d.mag) (h1 : 128 ≤ Int.log 2 d.mag) :
    decimal_to_float32 d = idealRound32 d := by
  have hz : d.mag ≠ 0 := ne_of_gt hq
  simp only [decimal_to_float32, idealRound32, idealRoundPos, ulpExp32]
  rw [if_neg hz, if_neg hz]
  rw [if_pos (by omega : (255 : ℤ) ≤ Int.log 2 d.mag + 127)]
  have hk : max (Int.log 2 d.mag - 23) (-149 : ℤ) = Int.log 2 d.mag - 23 :=
    max_eq_left (by omega)
  rw [hk]
  set q := d.mag with hqd
  set e := Int.log 2 q with hed
  set x := q * (2 : ℚ) ^ (-(e - 23)) with hxd
  have hxlo : (2 : ℚ) ^ (23 : ℤ) ≤ x := by
    have h := x_lower q e (-(e - 23)) (log2_lower q hq)
    rw [show e + -(e - 23) = (23 : ℤ) by ring] at h
    exact h
  have hN1 : (8388608 : ℤ) ≤ rneInt x := by
    apply rneInt_ge_int
    have hc : ((8388608 : ℤ) : ℚ) = (2 : ℚ) ^ (23 : ℤ) := by norm_num
    rw [hc]
    exact hxlo
  have hN1n : 8388608 ≤ (rneInt x).toNat := by omega
  rw [if_neg (by omega : ¬ (rneInt x).toNat = 0)]
  have hinf : (2 : ℚ) ^ (128 : ℤ) ≤ ((rneInt x).toNat : ℚ) * (2 : ℚ) ^ (e - 23) := by
    have hcastN : (8388608 : ℚ) ≤ ((rneInt x).toNat : ℚ) := by exact_mod_cast hN1n
    have hp : (0 : ℚ) < (2 : ℚ) ^ (e - 23) := zpow_pos (by norm_num) _
    have hm : (8388608 : ℚ) * (2 : ℚ) ^ (e - 23) ≤ ((rneInt x).toNat : ℚ) * (2 : ℚ) ^ (e - 23) :=
      mul_le_mul_of_nonneg_right hcastN hp.le
    have he : (8388608 : ℚ) * (2 : ℚ) ^ (e - 23) = (2 : ℚ) ^ (e : ℤ) := by
      rw [show (8388608 : ℚ) = (2 : ℚ) ^ (23 : ℤ) by norm_num,
        ← zpow_add₀ (by norm_num : (2 : ℚ) ≠ 0), show 23 + (e - 23) = e by ring]
    have h128 : (2 : ℚ) ^ (128 : ℤ) ≤ (2 : ℚ) ^ (e : ℤ) :=
      zpow_le_zpow_right₀ (by norm_num) (by omega)
    linarith
  rw [if_pos hinf]
  cases hng : d.neg <;> simp only [hng, Bool.false_eq_true, if_false, if_true] <;> decide

lemma d2f_ideal_subnormal (d : SDec) (hq : 0 < d.mag) (h2 : Int.log 2 d.mag ≤ -127) :
    decimal_to_float32 d = idealRound32 d := by
  have hz : d.mag ≠ 0 := ne_of_gt hq
  simp only [decimal_to_float32, idealRound32, idealRoundPos, ulpExp32]
  rw [if_neg hz, if_neg hz]
  rw [if_neg (by omega : ¬ (255 : ℤ) ≤ Int.log 2 d.mag + 127)]
  rw [if_neg (by omega : ¬ (1 : ℤ) ≤ Int.log 2 d.mag + 127)]
  have hk : max (Int.log 2 d.mag - 23) (-149 : ℤ) = -149 := max_eq_right (by omega)
  rw [hk]
  set q := d.mag with hqd
  set e := Int.log 2 q with hed
  rw [show -(-149 : ℤ) = (149 : ℤ) by norm_num]
  rw [show (49 : ℤ) + (e + 127) - e = (176 : ℤ) by ring]
  have hscale : q * (2 : ℚ) ^ (176 : ℤ) = (q * (2 : ℚ) ^ (149 : ℤ)) * 2 ^ 27 := by
    rw [mul_assoc, ← zpow_natCast (2 : ℚ) 27, ← zpow_add₀ (by norm_num : (2 : ℚ) ≠ 0)]
    norm_num
  rw [hscale]
  have hx0 : 0 < q * (2 : ℚ) ^ (149 : ℤ) := by positivity
  have hxlt : q * (2 : ℚ) ^ (149 : ℤ) < (2 : ℚ) ^ (e + 150) := by
    have h := x_upper q (e + 1) 149 (log2_upper q)
    rw [show e + 1 + 149 = e + 150 by ring] at h
    exact h
  by_cases hdeep : (25 : ℤ) ≤ 1 - (e + 127)
  · rw [if_pos hdeep]
    have hhalf : q * (2 : ℚ) ^ (149 : ℤ) < 1 / 2 := by
      have hm : (2 : ℚ) ^ (e + 150) ≤ (2 : ℚ) ^ (-1 : ℤ) :=
        zpow_le_zpow_right₀ (by norm_num) (by omega)
      have hr : (2 : ℚ) ^ (-1 : ℤ) = 1 / 2 := by norm_num
      exact lt_of_lt_of_le hxlt (le_trans hm (le_of_eq hr))
    have hN0 : rneInt (q * (2 : ℚ) ^ (149 : ℤ)) = 0 :=
      rneInt_eq_zero_of_lt_half _ hx0.le hhalf
    rw [hN0]
    rw [if_pos (by norm_num : (0 : ℤ).toNat = 0)]
    cases hng : d.neg <;> simp only [hng, Bool.false_eq_true, if_false, if_true] <;> decide
  · rw [if_neg hdeep]
    obtain ⟨hm27, hround⟩ := grs_core (q * (2 : ℚ) ^ (149 : ℤ)) hx0
    have hx23 : q * (2 : ℚ) ^ (149 : ℤ) < (2 : ℚ) ^ (23 : ℤ) := by
      have hm : (2 : ℚ) ^ (e + 150) ≤ (2 : ℚ) ^ (23 : ℤ) :=
        zpow_le_zpow_right₀ (by norm_num) (by omega)
      linarith
    have hNle : rneInt (q * (2 : ℚ) ^ (149 : ℤ)) ≤ 8388608 := by
      apply rneInt_le_int
      have hc : ((8388608 : ℤ) : ℚ) = (2 : ℚ) ^ (23 : ℤ) := by norm_num
      rw [hc]
      exact hx23.le
    have hNge0 : 0 ≤ rneInt (q * (2 : ℚ) ^ (149 : ℤ)) := by
      apply rneInt_ge_int
      exact_mod_cast hx0.le
    have hfl : ⌊q * (2 : ℚ) ^ (149 : ℤ)⌋ < 8388608 := by
      apply Int.floor_lt.mpr
      have hc : ((8388608 : ℤ) : ℚ) = (2 : ℚ) ^ (23 : ℤ) := by norm_num
      rw [hc]
      exact hx23
    set N := (rneInt (q * (2 : ℚ) ^ (149 : ℤ))).toNat with hNd
    set si := (⌊(q * (2 : ℚ) ^ (149 : ℤ)) * 2 ^ 27⌋).toNat with hsid
    set st := (if si &&& 0x1FFFFFF ≠ 0 ∨ (q * (2 : ℚ) ^ (149 : ℤ)) * 2 ^ 27 ≠ (si : ℚ)
      then (1 : ℕ) else 0) with hstd
    have hNn : N ≤ 8388608 := by omega
    have hninf : ¬ (2 : ℚ) ^ (128 : ℤ) ≤ (N : ℚ) * (2 : ℚ) ^ (-149 : ℤ) := by
      have hcN : ((N : ℕ) : ℚ) ≤ 8388608 := by exact_mod_cast hNn
      have hp : (0 : ℚ) < (2 : ℚ) ^ (-149 : ℤ) := zpow_pos (by norm_num) _
      have hmul : (N : ℚ) * (2 : ℚ) ^ (-149 : ℤ) ≤ 8388608 * (2 : ℚ) ^ (-149 : ℤ) :=
        mul_le_mul_of_nonneg_right hcN hp.le
      have h2 : (8388608 : ℚ) * (2 : ℚ) ^ (-149 : ℤ) = (2 : ℚ) ^ (-126 : ℤ) := by
        rw [show (8388608 : ℚ) = (2 : ℚ) ^ (23 : ℤ) by norm_num,
          ← zpow_add₀ (by norm_num : (2 : ℚ) ≠ 0)]
        norm_num
      have h3 : (2 : ℚ) ^ (-126 : ℤ) < (2 : ℚ) ^ (128 : ℤ) :=
        zpow_lt_zpow_right₀ (by norm_num) (by norm_num)
      push_neg
      linarith
    by_cases hC : (si >>> 26) &&& 1 &&& ((si >>> 25) &&& 1 ||| st ||| (si >>> 27) &&& 1) ≠ 0
    · rw [if_pos hC] at hround ⊢
      rw [hround]
      have hN1 : 1 ≤ N := by omega
      rw [if_neg (by omega : ¬ N = 0), if_neg hninf,
        if_neg (by omega : ¬ 1 <<< 24 ≤ N)]
      by_cases hN23 : 1 <<< 23 ≤ N
      · rw [if_pos hN23, if_pos hN23]
        rw [show N = 8388608 by omega]
        cases hng : d.neg <;> simp only [hng, Bool.false_eq_true, if_false, if_true] <;> decide
      · rw [if_neg hN23, if_neg hN23]
        rw [mant_field, Nat.mod_eq_of_lt (by omega : N < 2 ^ 23)]
        cases hng : d.neg <;> simp only [hng, Bool.false_eq_true, if_false, if_true] <;> rfl
    · rw [if_neg hC] at hround ⊢
      rw [hround]
      have hNlt : N < 8388608 := by
        rw [hround] at hm27
        omega
      by_cases hN0 : N = 0
      · rw [if_pos hN0, hN0]
        cases hng : d.neg <;> simp only [hng, Bool.false_eq_true, if_false, if_true] <;> decide
      · rw [if_neg hN0, if_neg hninf,
          if_neg (by omega : ¬ 1 <<< 24 ≤ N), if_neg (by omega : ¬ 1 <<< 23 ≤ N)]
        rw [mant_field, Nat.mod_eq_of_lt (by omega : N < 2 ^ 23)]
        cases hng : d.neg <;> simp only [hng, Bool.false_eq_true, if_false, if_true] <;> rfl

lemma d2f_ideal_normal (d : SDec) (hq : 0 < d.mag) (h1 : -126 ≤ Int.log 2 d.mag)
    (h2 : Int.log 2 d.mag ≤ 127) :
    decimal_to_float32 d = idealRound32 d := by
  have hz : d.mag ≠ 0 := ne_of_gt hq
  simp only [decimal_to_float32, idealRound32, idealRoundPos, ulpExp32]
  rw [if_neg hz, if_neg hz]
  rw [if_neg (by omega : ¬ (255 : ℤ) ≤ Int.log 2 d.mag + 127)]
  rw [if_pos (by omega : (1 : ℤ) ≤ Int.log 2 d.mag + 127)]
  have hk : max (Int.log 2 d.mag - 23) (-149 : ℤ) = Int.log 2 d.mag - 23 :=
    max_eq_left (by omega)
  rw [hk]
  set q := d.mag with hqd
  set e := Int.log 2 q with hed
  have hscale : q * (2 : ℚ) ^ (50 - e) = (q * (2 : ℚ) ^ (-(e - 23))) * 2 ^ 27 := by
    rw [mul_assoc, ← zpow_natCast (2 : ℚ) 27, ← zpow_add₀ (by norm_num : (2 : ℚ) ≠ 0)]
    rw [show -(e - 23) + ((27 : ℕ) : ℤ) = 50 - e by push_cast; ring]
  rw [hscale]
  set x := q * (2 : ℚ) ^ (-(e - 23)) with hxd
  have hx0 : (0 : ℚ) < x := by rw [hxd]; positivity
  have hxlo : (2 : ℚ) ^ (23 : ℤ) ≤ x := by
    have h := x_lower q e (-(e - 23)) (log2_lower q hq)
    rw [show e + -(e - 23) = (23 : ℤ) by ring] at h
    rw [hxd]
    exact h
  have hxhi : x < (2 : ℚ) ^ (24 : ℤ) := by
    have h := x_upper q (e + 1) (-(e - 23)) (log2_upper q)
    rw [show e + 1 + -(e - 23) = (24 : ℤ) by ring] at h
    rw [hxd]
    exact h
  have hNge : (8388608 : ℤ) ≤ rneInt x := by
    apply rneInt_ge_int
    rw [show ((8388608 : ℤ) : ℚ) = (2 : ℚ) ^ (23 : ℤ) by norm_num]
    exact hxlo
  have hNle : rneInt x ≤ 16777216 := by
    apply rneInt_le_int
    rw [show ((16777216 : ℤ) : ℚ) = (2 : ℚ) ^ (24 : ℤ) by norm_num]
    exact hxhi.le
  have hfhi : ⌊x⌋ < 16777216 := by
    apply Int.floor_lt.mpr
    rw [show ((16777216 : ℤ) : ℚ) = (2 : ℚ) ^ (24 : ℤ) by norm_num]
    exact hxhi
  have hflo : (0 : ℤ) ≤ ⌊x⌋ := Int.floor_nonneg.mpr hx0.le
  obtain ⟨hm27, hround⟩ := grs_core x hx0
  set N := (rneInt x).toNat with hNd
  set si := (⌊x * 2 ^ 27⌋).toNat with hsid
  set st := (if si &&& 0x1FFFFFF ≠ 0 ∨ x * 2 ^ 27 ≠ (si : ℚ) then (1 : ℕ) else 0) with hstd
  have hN1 : 8388608 ≤ N := by omega
  have hN2 : N ≤ 16777216 := by omega
  rw [if_neg (by omega : ¬ N = 0)]
  by_cases hC : (si >>> 26) &&& 1 &&& ((si >>> 25) &&& 1 ||| st ||| (si >>> 27) &&& 1) ≠ 0
  · rw [if_pos hC] at hround ⊢
    rw [hround]
    by_cases hN24 : 1 <<< 24 ≤ N
    · have hNval : N = 16777216 := by omega
      rw [if_pos hN24]
      by_cases hlast : e = 127
      · rw [if_pos (by omega : (255 : ℤ) ≤ e + 127 + 1)]
        have hinf : (2 : ℚ) ^ (128 : ℤ) ≤ (N : ℚ) * (2 : ℚ) ^ (e - 23) := by
          rw [hNval, hlast, show ((16777216 : ℕ) : ℚ) = (2 : ℚ) ^ (24 : ℤ) by norm_num,
            ← zpow_add₀ (by norm_num : (2 : ℚ) ≠ 0)]
          norm_num
        rw [if_pos hinf]
        cases hng : d.neg <;> simp only [hng, Bool.false_eq_true, if_false, if_true] <;> decide
      · rw [if_neg (by omega : ¬ (255 : ℤ) ≤ e + 127 + 1)]
        have hninf : ¬ (2 : ℚ) ^ (128 : ℤ) ≤ (N : ℚ) * (2 : ℚ) ^ (e - 23) := by
          rw [hNval, show ((16777216 : ℕ) : ℚ) = (2 : ℚ) ^ (24 : ℤ) by norm_num,
            ← zpow_add₀ (by norm_num : (2 : ℚ) ≠ 0)]
          push_neg
          have h127 : (2 : ℚ) ^ (24 + (e - 23)) ≤ (2 : ℚ) ^ (127 : ℤ) :=
            zpow_le_zpow_right₀ (by norm_num) (by omega)
          have hlt : (2 : ℚ) ^ (127 : ℤ) < (2 : ℚ) ^ (128 : ℤ) :=
            zpow_lt_zpow_right₀ (by norm_num) (by norm_num)
          linarith
        rw [if_neg hninf, if_pos hN24]
        rw [show (e - 23 + 151 : ℤ) = e + 127 + 1 by ring, Nat.or_assoc]
        cases hng : d.neg <;> simp only [hng, Bool.false_eq_true, if_false, if_true] <;> rfl
    · rw [if_neg hN24]
      have hninf : ¬ (2 : ℚ) ^ (128 : ℤ) ≤ (N : ℚ) * (2 : ℚ) ^ (e - 23) := by
        have hcN : ((N : ℕ) : ℚ) < 16777216 := by exact_mod_cast (by omega : N < 16777216)
        have hp : (0 : ℚ) < (2 : ℚ) ^ (e - 23) := zpow_pos (by norm_num) _
        have hmul : (N : ℚ) * (2 : ℚ) ^ (e - 23) < 16777216 * (2 : ℚ) ^ (e - 23) :=
          mul_lt_mul_of_pos_right hcN hp
        have h2 : (16777216 : ℚ) * (2 : ℚ) ^ (e - 23) = (2 : ℚ) ^ (e + 1) := by
          rw [show (16777216 : ℚ) = (2 : ℚ) ^ (24 : ℤ) by norm_num,
            ← zpow_add₀ (by norm_num : (2 : ℚ) ≠ 0), show 24 + (e - 23) = e + 1 by ring]
        have h3 : (2 : ℚ) ^ (e + 1) ≤ (2 : ℚ) ^ (128 : ℤ) :=
          zpow_le_zpow_right₀ (by norm_num) (by omega)
        push_neg
        linarith
      rw [if_neg hninf, if_neg hN24, if_pos (by omega : 1 <<< 23 ≤ N)]
      rw [show (e - 23 + 150 : ℤ) = e + 127 by ring, Nat.or_assoc]
      cases hng : d.neg <;> simp only [hng, Bool.false_eq_true, if_false, if_true] <;> rfl
  · rw [if_neg hC] at hround ⊢
    rw [hround] at hm27 ⊢
    have hNr : N < 16777216 := by omega
    have hninf : ¬ (2 : ℚ) ^ (128 : ℤ) ≤ (N : ℚ) * (2 : ℚ) ^ (e - 23) := by
      have hcN : ((N : ℕ) : ℚ) < 16777216 := by exact_mod_cast hNr
      have hp : (0 : ℚ) < (2 : ℚ) ^ (e - 23) := zpow_pos (by norm_num) _
      have hmul : (N : ℚ) * (2 : ℚ) ^ (e - 23) < 16777216 * (2 : ℚ) ^ (e - 23) :=
        mul_lt_mul_of_pos_right hcN hp
      have h2 : (16777216 : ℚ) * (2 : ℚ) ^ (e - 23) = (2 : ℚ) ^ (e + 1) := by
        rw [show (16777216 : ℚ) = (2 : ℚ) ^ (24 : ℤ) by norm_num,
          ← zpow_add₀ (by norm_num : (2 : ℚ) ≠ 0), show 24 + (e - 23) = e + 1 by ring]
      have h3 : (2 : ℚ) ^ (e + 1) ≤ (2 : ℚ) ^ (128 : ℤ) :=
        zpow_le_zpow_right₀ (by norm_num) (by omega)
      push_neg
      linarith
    rw [if_neg hninf, if_neg (by omega : ¬ 1 <<< 24 ≤ N), if_pos (by omega : 1 <<< 23 ≤ N)]
    rw [show (e - 23 + 150 : ℤ) = e + 127 by ring, Nat.or_assoc]
    cases hng : d.neg <;> simp only [hng, Bool.false_eq_true, if_false, if_true] <;> rfl

/-- Conversion of an exact signed value with non-negative magnitude agrees
with the ideal single round-to-nearest-even to binary32. -/
lemma decimal_to_float32_eq_ideal (d : SDec) (h0 : 0 ≤ d.mag) :
    decimal_to_float32 d = idealRound32 d := by
  by_cases hz : d.mag = 0
  · simp only [decimal_to_float32, idealRound32, if_pos hz]
  · have hq : 0 < d.mag := lt_of_le_of_ne h0 (Ne.symm hz)
    by_cases hA : 128 ≤ Int.log 2 d.mag
    · exact d2f_ideal_overflow d hq hA
    · by_cases hB : -126 ≤ Int.log 2 d.mag
      · exact d2f_ideal_normal d hq hB (by omega)
      · exact d2f_ideal_subnormal d hq (by omega)

lemma composed_fields (s E m : ℕ) (hs : s ≤ 1) (hE : E < 256) (hm : m < 2 ^ 23) :
    s <<< 31 ||| E <<< 23 ||| m = s * 2 ^ 31 + E * 2 ^ 23 + m := by
  rw [Nat.or_assoc, shiftLeft_lor_eq_add E 23 m hm,
    shiftLeft_lor_eq_add s 31 (E * 2 ^ 23 + m) (by omega)]
  omega

lemma is_nan_composed (s E m : ℕ) (hs : s ≤ 1) (hE : E ≤ 254) (hm : m < 2 ^ 23) :
    is_nan (s <<< 31 ||| E <<< 23 ||| m) = false := by
  unfold is_nan
  rw [composed_fields s E m hs (by omega) hm, exp_field_eq]
  have hfield : (s * 2 ^ 31 + E * 2 ^ 23 + m) / 2 ^ 23 % 256 = E := by omega
  rw [hfield]
  rw [decide_eq_false (by omega : ¬ E = 0xFF), Bool.false_and]

lemma is_nan_composed0 (s m : ℕ) (hs : s ≤ 1) (hm : m < 2 ^ 23) :
    is_nan (s <<< 31 ||| m) = false := by
  unfold is_nan
  rw [shiftLeft_lor_eq_add s 31 m (by omega), exp_field_eq]
  have hfield : (s * 2 ^ 31 + m) / 2 ^ 23 % 256 = 0 := by omega
  rw [hfield]
  rw [decide_eq_false (by omega : ¬ (0 : ℕ) = 0xFF), Bool.false_and]

/-- The conversion never produces a NaN bit pattern: all its outputs have an
exponent field below 255, or are exact infinities or zeros. -/
lemma d2f_not_nan (d : SDec) : is_nan (decimal_to_float32 d) = false := by
  simp only [decimal_to_float32]
  split_ifs <;>
    first
      | (rw [mant_field]
         first
           | (with_reducible exact is_nan_composed _ _ _ (by omega) (by omega) (by omega))
           | (with_reducible exact is_nan_composed0 _ _ (by omega) (by omega)))
      | decide

lemma log2_eq_of_bracket (q : ℚ) (e : ℤ) (hq : 0 < q) (hlo : (2 : ℚ) ^ e ≤ q)
    (hhi : q < (2 : ℚ) ^ (e + 1)) : Int.log 2 q = e := by
  have h1 : e ≤ Int.log 2 q :=
    (Int.zpow_le_iff_le_log (by norm_num : (1 : ℕ) < 2) hq).mp (by exact_mod_cast hlo)
  have h2 : Int.log 2 q < e + 1 :=
    (Int.lt_zpow_iff_log_lt (by norm_num : (1 : ℕ) < 2) hq).mp (by exact_mod_cast hhi)
  omega

lemma rneInt_add_small (c : ℤ) (r : ℚ) (h0 : 0 ≤ r) (hh : r < 1 / 2) :
    rneInt ((c : ℚ) + r) = c := by
  simp only [rneInt]
  have hfl : ⌊(c : ℚ) + r⌋ = c := by
    rw [add_comm, Int.floor_add_int, Int.floor_eq_zero_iff.mpr ⟨h0, by linarith⟩, zero_add]
  rw [hfl, if_pos (by push_cast; linarith)]

lemma SDec_add_mag_nonneg (a b : SDec) : 0 ≤ (SDec.add a b).mag := by
  simp only [SDec.add]
  split_ifs <;> simp [abs_nonneg]

/-- On finite operands the fused multiply-add model takes the exact path and
performs the single conversion of the exact product-plus-addend. -/
lemma fmadd_eq_ideal (a b c : ℕ)
    (hna : is_nan a = false) (hnb : is_nan b = false) (hnc : is_nan c = false)
    (hia : is_inf a = false) (hib : is_inf b = false) (hic : is_inf c = false) :
    fmadd_s a b c = idealFMA32 a b c := by
  unfold fmadd_s fma_float32 idealFMA32 canonicalize_nan
  simp only [hna, hnb, hnc, hia, hib, hic, Bool.false_or, Bool.or_false, Bool.false_and,
    Bool.and_false, Bool.or_self, Bool.false_eq_true, if_false, d2f_not_nan]
  exact decimal_to_float32_eq_ideal _ (SDec_add_mag_nonneg _ _)

lemma f2d_A : float32_to_decimal 0x3F800001 =
    { neg := false, mag := (8388609 : ℚ) * (2 : ℚ) ^ (-23 : ℤ) } := by
  rw [float32_to_decimal_eq]
  norm_num [SDec.mk.injEq, decide_eq_false_iff_not]

lemma f2d_C : float32_to_decimal 0xBF800002 =
    { neg := true, mag := (8388610 : ℚ) * (2 : ℚ) ^ (-23 : ℤ) } := by
  rw [float32_to_decimal_eq]
  norm_num [SDec.mk.injEq, decide_eq_true_eq]

lemma f2d_R : float32_to_decimal 0x3F800002 =
    { neg := false, mag := (8388610 : ℚ) * (2 : ℚ) ^ (-23 : ℤ) } := by
  rw [float32_to_decimal_eq]
  norm_num [SDec.mk.injEq, decide_eq_false_iff_not]

lemma mulAA : SDec.mul (float32_to_decimal 0x3F800001) (float32_to_decimal 0x3F800001) =
    { neg := false, mag := (70368760954881 : ℚ) * (2 : ℚ) ^ (-46 : ℤ) } := by
  rw [f2d_A]
  simp only [SDec.mul]
  norm_num [SDec.mk.injEq]

lemma addD : SDec.add { neg := false, mag := (70368760954881 : ℚ) * (2 : ℚ) ^ (-46 : ℤ) }
    { neg := true, mag := (8388610 : ℚ) * (2 : ℚ) ^ (-23 : ℤ) } =
    { neg := false, mag := (2 : ℚ) ^ (-46 : ℤ) } := by
  simp only [SDec.add]
  norm_num [SDec.mk.injEq, decide_eq_false_iff_not]

lemma addZ : SDec.add { neg := false, mag := (8388610 : ℚ) * (2 : ℚ) ^ (-23 : ℤ) }
    { neg := true, mag := (8388610 : ℚ) * (2 : ℚ) ^ (-23 : ℤ) } =
    { neg := false, mag := (0 : ℚ) } := by
  simp only [SDec.add]
  norm_num [SDec.mk.injEq]

lemma idealRound32_eval_q (q : ℚ) (hq : q = (2 : ℚ) ^ (-46 : ℤ)) :
    idealRound32 { neg := false, mag := q } = 0x28800000 := by
  simp only [idealRound32, idealRoundPos, ulpExp32]
  rw [if_neg (by rw [hq]; norm_num : ¬ q = 0)]
  rw [show Int.log 2 q = -46 by
    rw [hq]; exact log2_eq_of_bracket _ (-46) (by positivity) (by norm_num) (by norm_num)]
  rw [show max ((-46 : ℤ) - 23) (-149) = (-69 : ℤ) by norm_num]
  rw [show -(-69 : ℤ) = (69 : ℤ) by norm_num, hq]
  rw [show (2 : ℚ) ^ (-46 : ℤ) * (2 : ℚ) ^ (69 : ℤ) = ((8388608 : ℤ) : ℚ) by norm_num]
  rw [rneInt_intCast]
  rw [show ((8388608 : ℤ)).toNat = 8388608 from rfl]
  rw [if_neg (by norm_num : ¬ (8388608 : ℕ) = 0)]
  rw [if_neg (by norm_num : ¬ (2 : ℚ) ^ (128 : ℤ) ≤ ((8388608 : ℕ) : ℚ) * (2 : ℚ) ^ (-69 : ℤ))]
  rw [if_neg (by decide : ¬ 1 <<< 24 ≤ 8388608), if_pos (by decide : 1 <<< 23 ≤ 8388608)]
  decide

lemma idealRound32_pow46 :
    idealRound32 { neg := false, mag := (2 : ℚ) ^ (-46 : ℤ) } = 0x28800000 :=
  idealRound32_eval_q _ rfl

lemma idealRound32_evalAA_q (q : ℚ)
    (hq : q = (70368760954881 : ℚ) * (2 : ℚ) ^ (-46 : ℤ)) :
    idealRound32 { neg := false, mag := q } = 0x3F800002 := by
  simp only [idealRound32, idealRoundPos, ulpExp32]
  rw [if_neg (by rw [hq]; norm_num : ¬ q = 0)]
  rw [show Int.log 2 q = 0 by
    rw [hq]; exact log2_eq_of_bracket _ 0 (by norm_num) (by norm_num) (by norm_num)]
  rw [show max ((0 : ℤ) - 23) (-149) = (-23 : ℤ) by norm_num]
  rw [show -(-23 : ℤ) = (23 : ℤ) by norm_num, hq]
  rw [show (70368760954881 : ℚ) * (2 : ℚ) ^ (-46 : ℤ) * (2 : ℚ) ^ (23 : ℤ) =
    ((8388610 : ℤ) : ℚ) + (2 : ℚ) ^ (-23 : ℤ) by norm_num]
  rw [rneInt_add_small 8388610 ((2 : ℚ) ^ (-23 : ℤ)) (by positivity) (by norm_num)]
  rw [show ((8388610 : ℤ)).toNat = 8388610 from rfl]
  rw [if_neg (by norm_num : ¬ (8388610 : ℕ) = 0)]
  rw [if_neg (by norm_num : ¬ (2 : ℚ) ^ (128 : ℤ) ≤ ((8388610 : ℕ) : ℚ) * (2 : ℚ) ^ (-23 : ℤ))]
  rw [if_neg (by decide : ¬ 1 <<< 24 ≤ 8388610), if_pos (by decide : 1 <<< 23 ≤ 8388610)]
  decide

lemma idealRound32_mulAA :
    idealRound32 { neg := false, mag := (70368760954881 : ℚ) * (2 : ℚ) ^ (-46 : ℤ) } =
      0x3F800002 :=
  idealRound32_evalAA_q _ rfl

lemma idealRound32_zero :
    idealRound32 { neg := false, mag := (0 : ℚ) } = 0 := by
  simp only [idealRound32]
  norm_num [FP_POS_ZERO]

lemma fused_eval : fmadd_s 0x3F800001 0x3F800001 0xBF800002 = 0x28800000 := by
  rw [fmadd_eq_ideal _ _ _ (by decide) (by decide) (by decide) (by decide) (by decide)
    (by decide)]
  unfold idealFMA32
  rw [mulAA, f2d_C, addD, idealRound32_pow46]

lemma twostep_eval : twoStepFMA32 0x3F800001 0x3F800001 0xBF800002 = 0 := by
  unfold twoStepFMA32
  rw [mulAA, idealRound32_mulAA, f2d_R, f2d_C, addZ, idealRound32_zero]

/-- C1: on every triple of finite (non-NaN, non-infinite) binary32 operands
the fused multiply-add model equals the ideal single rounding of the exact
value a*b+c to binary32 with round-half-to-even, with normal, subnormal and
overflow-to-infinity results handled; and it is not pointwise equal to the
naive double-rounded two-step computation, which differs already on the
triple (1+2^-23, 1+2^-23, -(1+2^-22)). -/
theorem fmadd_single_rounding :
    (∀ a b c : ℕ,
        is_nan a = false → is_inf a = false → is_nan b = false → is_inf b = false →
        is_nan c = false → is_inf c = false →
        fmadd_s a b c = idealFMA32 a b c) ∧
    fmadd_s 0x3F800001 0x3F800001 0xBF800002 ≠
      twoStepFMA32 0x3F800001 0x3F800001 0xBF800002 := by
  constructor
  · intro a b c hna hia hnb hib hnc hic
    exact fmadd_eq_ideal a b c hna hnb hnc hia hib hic
  · rw [fused_eval, twostep_eval]
    decide

/-- Witness for C1: the exact fused multiply-add of 1.0, 2.0 and 1.0. -/
theorem fmadd_single_rounding_witness :
    fmadd_s 0x3F800000 0x40000000 0x3F800000 =
      idealFMA32 0x3F800000 0x40000000 0x3F800000 :=
  fmadd_single_rounding.1 0x3F800000 0x40000000 0x3F800000
    (by decide) (by decide) (by decide) (by decide) (by decide) (by decide)

end Frost
